import Mathlib

/-!
Verification development for the ecotopia evaluation/scoring code.

The definitions below are shallow embeddings of the Python functions in
`eval_extraction.py`, `eval_citizens.py`, `training/evaluate_models.py`,
`training/eval_difficulty.py`, `training/bedrock_data_gen.py` and
`training/run_weave_evals.py`.  Python values arising from `json.loads`
are modelled by the inductive `JsonValue`; Python exceptions are modelled
by `Except Exn _`, where `.error` means the exception propagates to the
caller; machine floats are modelled by `Rat` (all numbers appearing in the
scoring code are small dyadic/decimal values for which exact rational
arithmetic agrees with float arithmetic on every comparison performed).
-/

/-- Python exception kinds raised by the embedded code paths.
`emptyBatch` is the error kind posited by the specification's §4.5/§7
(`EmptyBatch`); no code path of the repository produces it — it exists so
the specified behaviour can be compared with the implemented one. -/
inductive Exn where
  | jsonDecodeError
  | attributeError
  | typeError
  | keyError
  | zeroDivisionError
  | emptyBatch
deriving DecidableEq

/-- Whitespace for Python `str.strip()` / `str.split()` (ASCII range). -/
def pyIsSpace (c : Char) : Bool :=
  c = ' ' ∨ c = '\t' ∨ c = '\n' ∨ c = '\r' ∨ c = '\x0b' ∨ c = '\x0c'

/-- Python `str.strip()` with no arguments. -/
def pyStrip (s : String) : String :=
  ⟨((s.data.dropWhile pyIsSpace).reverse.dropWhile pyIsSpace).reverse⟩

/-- ASCII lowercasing of one character (Python `str.lower()` on the
ASCII inputs handled by the scoring code). -/
def pyLowerChar (c : Char) : Char :=
  if 'A' ≤ c ∧ c ≤ 'Z' then Char.ofNat (c.toNat + 32) else c

/-- Python `str.lower()`. -/
def pyLowerStr (s : String) : String := ⟨s.data.map pyLowerChar⟩

/-- Accumulator loop for `str.split()` with no arguments. -/
def splitWsAux : List Char → List Char → List String
  | [], [] => []
  | [], acc => [⟨acc.reverse⟩]
  | c :: cs, acc =>
    if pyIsSpace c then
      if acc.isEmpty then splitWsAux cs []
      else ⟨acc.reverse⟩ :: splitWsAux cs []
    else splitWsAux cs (c :: acc)

/-- Python `str.split()` with no arguments: split on whitespace runs,
dropping empty fields. -/
def pySplitWs (s : String) : List String := splitWsAux s.data []

/-- Accumulator loop for `str.split("\n")`. -/
def splitNlAux : List Char → List Char → List String
  | [], acc => [⟨acc.reverse⟩]
  | c :: cs, acc =>
    if c = '\n' then ⟨acc.reverse⟩ :: splitNlAux cs []
    else splitNlAux cs (c :: acc)

/-- Python `text.split("\n")`: split on every newline, keeping empties. -/
def pySplitNl (s : String) : List String := splitNlAux s.data []

/-- Python `"\n".join(lines)`. -/
def pyJoinNl : List String → String
  | [] => ""
  | [s] => s
  | s :: rest => s ++ "\n" ++ pyJoinNl rest

/-- Is the first list a prefix of the second (Boolean)? -/
def hasPfx : List Char → List Char → Bool
  | [], _ => true
  | _, [] => false
  | a :: ps, b :: ss => a = b && hasPfx ps ss

/-- Python `str.startswith` for the patterns used by the parsing code. -/
def pyStartsWith (s p : String) : Bool := hasPfx p.data s.data

/-- Model of the Python values produced by `json.loads`.
`nan`, `inf` and `negInf` model the non-finite floats Python's JSON
decoder accepts (`NaN`, `Infinity`, `-Infinity`). -/
inductive JsonValue where
  | null
  | bool (b : Bool)
  | num (q : Rat)
  | str (s : String)
  | arr (items : List JsonValue)
  | obj (fields : List (String × JsonValue))
  | nan
  | inf
  | negInf

/-- First binding of a key in an association list (Python dict lookup;
the JSON decoder below keeps keys unique, the last duplicate winning). -/
def lookupKV : List (String × JsonValue) → String → Option JsonValue
  | [], _ => none
  | (k, v) :: rest, key => if k = key then some v else lookupKV rest key

/-- Insert preserving first-occurrence position, last value winning —
Python `dict` update semantics used while decoding JSON objects. -/
def insertKV : List (String × JsonValue) → String → JsonValue → List (String × JsonValue)
  | [], key, v => [(key, v)]
  | (k, w) :: rest, key, v =>
    if k = key then (k, v) :: rest else (k, w) :: insertKV rest key v

/-- Fuel-indexed value equality implementing Python `==` on JSON-decoded
values: `bool` compares equal to `0`/`1`, `NaN` is unequal to everything
(itself included), dictionaries compare by key set.  The fuel strictly
exceeds the recursion depth at every call from `pyEq`. -/
def pyEqF : Nat → JsonValue → JsonValue → Bool
  | 0, _, _ => false
  | f + 1, a, b =>
    match a, b with
    | .null, .null => true
    | .bool x, .bool y => x = y
    | .bool x, .num y => (if x then (1 : Rat) else 0) = y
    | .num x, .bool y => x = (if y then (1 : Rat) else 0)
    | .num x, .num y => x = y
    | .str x, .str y => x = y
    | .inf, .inf => true
    | .negInf, .negInf => true
    | .arr xs, .arr ys =>
      xs.length = ys.length && (xs.zip ys).all (fun p => pyEqF f p.1 p.2)
    | .obj xs, .obj ys =>
      xs.length = ys.length && xs.all (fun p =>
        match lookupKV ys p.1 with
        | some w => pyEqF f p.2 w
        | none => false)
    | _, _ => false

mutual
/-- Executable structural size of a JSON value, used only to supply the
fuel for `pyEq` (it strictly bounds the nesting depth). -/
def jsonSize : JsonValue → Nat
  | .null => 1
  | .bool _ => 1
  | .num _ => 1
  | .str _ => 1
  | .arr xs => 1 + jsonSizeList xs
  | .obj kvs => 1 + jsonSizeKVs kvs
  | .nan => 1
  | .inf => 1
  | .negInf => 1

/-- Size of a list of JSON values. -/
def jsonSizeList : List JsonValue → Nat
  | [] => 0
  | x :: xs => 1 + jsonSize x + jsonSizeList xs

/-- Size of a list of JSON object fields. -/
def jsonSizeKVs : List (String × JsonValue) → Nat
  | [] => 0
  | kv :: kvs => 1 + jsonSize kv.2 + jsonSizeKVs kvs
end

/-- Python `==` on JSON-decoded values. -/
def pyEq (a b : JsonValue) : Bool := pyEqF (jsonSize a + 1) a b

/-- Python `d.get(key, default)`: raises `AttributeError` on non-dicts. -/
def pyGet (v : JsonValue) (key : String) (dflt : JsonValue) : Except Exn JsonValue :=
  match v with
  | .obj kvs => .ok ((lookupKV kvs key).getD dflt)
  | _ => .error .attributeError

/-- Python `d[key]`: `KeyError` when absent, `TypeError` on non-dicts. -/
def pyGetItem (v : JsonValue) (key : String) : Except Exn JsonValue :=
  match v with
  | .obj kvs =>
    match lookupKV kvs key with
    | some x => .ok x
    | none => .error .keyError
  | _ => .error .typeError

/-- Python `len(v)`: defined for lists, dicts and strings, `TypeError`
otherwise. -/
def pyLen (v : JsonValue) : Except Exn Nat :=
  match v with
  | .arr xs => .ok xs.length
  | .obj kvs => .ok kvs.length
  | .str s => .ok s.length
  | _ => .error .typeError

/-- Python truthiness of a JSON-decoded value. -/
def pyTruthy (v : JsonValue) : Bool :=
  match v with
  | .null => false
  | .bool b => b
  | .num q => q ≠ 0
  | .str s => s ≠ ""
  | .arr xs => ¬ xs.isEmpty
  | .obj kvs => ¬ kvs.isEmpty
  | .nan => true
  | .inf => true
  | .negInf => true

/-- Python iteration `for x in v`: list elements, string characters,
dict keys; `TypeError` otherwise. -/
def asIterList (v : JsonValue) : Except Exn (List JsonValue) :=
  match v with
  | .arr xs => .ok xs
  | .str s => .ok (s.data.map (fun c => .str ⟨[c]⟩))
  | .obj kvs => .ok (kvs.map (fun p => .str p.1))
  | _ => .error .typeError

/-- Python `v[:n]` followed by iteration: `TypeError` on unsliceable
values. -/
def pySliceIter (v : JsonValue) (n : Nat) : Except Exn (List JsonValue) :=
  match v with
  | .arr xs => .ok (xs.take n)
  | .str s => .ok ((s.data.take n).map (fun c => .str ⟨[c]⟩))
  | _ => .error .typeError

/-- Python `/` on numbers: raises `ZeroDivisionError` on a zero
denominator instead of returning a value. -/
def pyDiv (a b : Rat) : Except Exn Rat :=
  if b = 0 then .error .zeroDivisionError else .ok (a / b)

/-- Left-to-right effectful map over `Except`, the evaluation order of a
Python comprehension: the first raised exception propagates. -/
def mapExc (f : α → Except Exn β) : List α → Except Exn (List β)
  | [] => .ok []
  | a :: as =>
    match f a with
    | .error e => .error e
    | .ok b =>
      match mapExc f as with
      | .error e => .error e
      | .ok bs => .ok (b :: bs)

/-- Stable insertion used to model Python `sorted` on strings. -/
def insertStr (x : String) : List String → List String
  | [] => [x]
  | y :: ys => if x ≤ y then x :: y :: ys else y :: insertStr x ys

/-- Ascending stable sort of strings (Python `sorted` on `str` values). -/
def sortStrs : List String → List String
  | [] => []
  | x :: xs => insertStr x (sortStrs xs)

/-- Extract the underlying strings when every element is a `str`. -/
def allStrsOf : List JsonValue → Option (List String)
  | [] => some []
  | .str s :: rest => (allStrsOf rest).map (fun ss => s :: ss)
  | _ => none

/-- Python `sorted`.  The scoring code only ever sorts lists of promise
`type` fields, which the data model fixes to strings; lists of length at
most one sort without any comparison.  Other element types are mapped to
`TypeError` (which Python raises for every mixed-type list). -/
def pySorted (xs : List JsonValue) : Except Exn (List JsonValue) :=
  match xs with
  | [] => .ok []
  | [x] => .ok [x]
  | _ =>
    match allStrsOf xs with
    | some ss => .ok ((sortStrs ss).map JsonValue.str)
    | none => .error .typeError

/-- JSON inter-token whitespace (`' '`, `'\t'`, `'\n'`, `'\r'`). -/
def jsonWs (c : Char) : Bool := c = ' ' ∨ c = '\t' ∨ c = '\n' ∨ c = '\r'

/-- Skip JSON whitespace. -/
def jskipWs (cs : List Char) : List Char := cs.dropWhile jsonWs

/-- Value of one hexadecimal digit, if any. -/
def hexVal (c : Char) : Option Nat :=
  if '0' ≤ c ∧ c ≤ '9' then some (c.toNat - '0'.toNat)
  else if 'a' ≤ c ∧ c ≤ 'f' then some (c.toNat - 'a'.toNat + 10)
  else if 'A' ≤ c ∧ c ≤ 'F' then some (c.toNat - 'A'.toNat + 10)
  else none

/-- Four hex digits of a `\uXXXX` escape. -/
def hex4 : List Char → Option (Nat × List Char)
  | a :: b :: c :: d :: rest =>
    match hexVal a, hexVal b, hexVal c, hexVal d with
    | some x, some y, some z, some w => some (((x * 16 + y) * 16 + z) * 16 + w, rest)
    | _, _, _, _ => none
  | _ => none

/-- Fuel-indexed body of a JSON string literal (after the opening quote).
Strict like Python's decoder: unescaped control characters are an error.
Surrogate pairs in `\u` escapes are combined; lone surrogates, which Lean
`Char` cannot carry, are conservatively an error (never exercised by the
scoring data). -/
def parseStrF : Nat → List Char → List Char → Except Exn (String × List Char)
  | 0, _, _ => .error .jsonDecodeError
  | _ + 1, [], _ => .error .jsonDecodeError
  | fuel + 1, c :: rest, acc =>
    if c = '"' then .ok (⟨acc.reverse⟩, rest)
    else if c = '\\' then
      match rest with
      | [] => .error .jsonDecodeError
      | e :: r2 =>
        if e = '"' then parseStrF fuel r2 ('"' :: acc)
        else if e = '\\' then parseStrF fuel r2 ('\\' :: acc)
        else if e = '/' then parseStrF fuel r2 ('/' :: acc)
        else if e = 'b' then parseStrF fuel r2 ('\x08' :: acc)
        else if e = 'f' then parseStrF fuel r2 ('\x0c' :: acc)
        else if e = 'n' then parseStrF fuel r2 ('\n' :: acc)
        else if e = 'r' then parseStrF fuel r2 ('\r' :: acc)
        else if e = 't' then parseStrF fuel r2 ('\t' :: acc)
        else if e = 'u' then
          match hex4 r2 with
          | none => .error .jsonDecodeError
          | some (h, r3) =>
            if h < 0xD800 ∨ 0xDFFF < h then parseStrF fuel r3 (Char.ofNat h :: acc)
            else if h < 0xDC00 then
              match r3 with
              | u1 :: u2 :: r4 =>
                if u1 = '\\' ∧ u2 = 'u' then
                  match hex4 r4 with
                  | some (l, r5) =>
                    if 0xDC00 ≤ l ∧ l ≤ 0xDFFF then
                      parseStrF fuel r5
                        (Char.ofNat (0x10000 + (h - 0xD800) * 0x400 + (l - 0xDC00)) :: acc)
                    else .error .jsonDecodeError
                  | none => .error .jsonDecodeError
                else .error .jsonDecodeError
              | _ => .error .jsonDecodeError
            else .error .jsonDecodeError
        else .error .jsonDecodeError
    else if c.toNat < 0x20 then .error .jsonDecodeError
    else parseStrF fuel rest (c :: acc)

/-- Decimal digit test. -/
def isDig (c : Char) : Bool := '0' ≤ c ∧ c ≤ '9'

/-- Digits to a natural number, most significant first. -/
def digsToNat (ds : List Char) : Nat :=
  ds.foldl (fun n c => n * 10 + (c.toNat - '0'.toNat)) 0

/-- Parse a JSON number per the RFC grammar (maximal match, like the
regex in Python's decoder): optional minus, integer part without leading
zeros, optional fraction, optional exponent.  The value is exact as a
rational. -/
def parseNumber (cs : List Char) : Except Exn (JsonValue × List Char) :=
  let (neg, cs1) :=
    match cs with
    | '-' :: rest => (true, rest)
    | _ => (false, cs)
  match cs1 with
  | [] => .error .jsonDecodeError
  | d :: _ =>
    if ¬ isDig d then .error .jsonDecodeError
    else
      let (ipart, cs2) :=
        if d = '0' then ([d], cs1.drop 1)
        else (cs1.takeWhile isDig, cs1.dropWhile isDig)
      let (fpart, cs3) :=
        match cs2 with
        | '.' :: r =>
          (r.takeWhile isDig, r.dropWhile isDig)
        | _ => ([], cs2)
      let hadDot := match cs2 with | '.' :: _ => true | _ => false
      if hadDot ∧ fpart.isEmpty then .error .jsonDecodeError
      else
        let (hadExp, esign, epart, cs4) :=
          match cs3 with
          | 'e' :: '+' :: r => (true, (1 : Int), r.takeWhile isDig, r.dropWhile isDig)
          | 'e' :: '-' :: r => (true, (-1 : Int), r.takeWhile isDig, r.dropWhile isDig)
          | 'e' :: r => (true, (1 : Int), r.takeWhile isDig, r.dropWhile isDig)
          | 'E' :: '+' :: r => (true, (1 : Int), r.takeWhile isDig, r.dropWhile isDig)
          | 'E' :: '-' :: r => (true, (-1 : Int), r.takeWhile isDig, r.dropWhile isDig)
          | 'E' :: r => (true, (1 : Int), r.takeWhile isDig, r.dropWhile isDig)
          | _ => (false, (1 : Int), [], cs3)
        if hadExp ∧ epart.isEmpty then .error .jsonDecodeError
        else
          let mant : Rat := (digsToNat ipart : Rat) +
            (digsToNat fpart : Rat) / ((10 : Rat) ^ fpart.length)
          let expo : Int := esign * (digsToNat epart : Int)
          let scaled : Rat :=
            if 0 ≤ expo then mant * (10 : Rat) ^ expo.toNat
            else mant / (10 : Rat) ^ (-expo).toNat
          .ok (.num (if neg then -scaled else scaled), cs4)

mutual
/-- Fuel-indexed JSON value parser (recursive descent, the grammar of
Python's `json.loads` including the non-finite float keywords).  The fuel
strictly bounds the call depth; every recursive call consumes at least
one input character first, so `input length + 1` fuel never runs out. -/
def parseValue : Nat → List Char → Except Exn (JsonValue × List Char)
  | 0, _ => .error .jsonDecodeError
  | fuel + 1, cs =>
    match cs with
    | [] => .error .jsonDecodeError
    | c :: rest =>
      if c = '"' then
        match parseStrF (rest.length + 1) rest [] with
        | .ok (s, r) => .ok (.str s, r)
        | .error e => .error e
      else if c = '{' then parseObjBody fuel (jskipWs rest) []
      else if c = '[' then parseArrBody fuel (jskipWs rest) []
      else if hasPfx "true".data cs then .ok (.bool true, cs.drop 4)
      else if hasPfx "false".data cs then .ok (.bool false, cs.drop 5)
      else if hasPfx "null".data cs then .ok (.null, cs.drop 4)
      else if hasPfx "NaN".data cs then .ok (.nan, cs.drop 3)
      else if hasPfx "Infinity".data cs then .ok (.inf, cs.drop 8)
      else if hasPfx "-Infinity".data cs then .ok (.negInf, cs.drop 9)
      else parseNumber cs

/-- Elements of a JSON array after `[` (whitespace already skipped). -/
def parseArrBody : Nat → List Char → List JsonValue → Except Exn (JsonValue × List Char)
  | 0, _, _ => .error .jsonDecodeError
  | fuel + 1, cs, acc =>
    match cs with
    | [] => .error .jsonDecodeError
    | c :: rest =>
      if c = ']' ∧ acc.isEmpty then .ok (.arr [], rest)
      else
        match parseValue fuel (c :: rest) with
        | .error e => .error e
        | .ok (v, r1) =>
          match jskipWs r1 with
          | ',' :: r2 => parseArrBody fuel (jskipWs r2) (acc ++ [v])
          | ']' :: r2 => .ok (.arr (acc ++ [v]), r2)
          | _ => .error .jsonDecodeError

/-- Members of a JSON object after `{` (whitespace already skipped). -/
def parseObjBody : Nat → List Char → List (String × JsonValue) →
    Except Exn (JsonValue × List Char)
  | 0, _, _ => .error .jsonDecodeError
  | fuel + 1, cs, acc =>
    match cs with
    | [] => .error .jsonDecodeError
    | c :: rest =>
      if c = '}' ∧ acc.isEmpty then .ok (.obj [], rest)
      else if c = '"' then
        match parseStrF (rest.length + 1) rest [] with
        | .error e => .error e
        | .ok (key, r1) =>
          match jskipWs r1 with
          | ':' :: r2 =>
            match parseValue fuel (jskipWs r2) with
            | .error e => .error e
            | .ok (v, r3) =>
              match jskipWs r3 with
              | ',' :: r4 => parseObjBody fuel (jskipWs r4) (insertKV acc key v)
              | '}' :: r4 => .ok (.obj (insertKV acc key v), r4)
              | _ => .error .jsonDecodeError
          | _ => .error .jsonDecodeError
      else .error .jsonDecodeError
end

/-- Model of Python `json.loads`: one JSON value surrounded by optional
whitespace; anything else raises `json.JSONDecodeError`. -/
def json_loads (s : String) : Except Exn JsonValue :=
  match parseValue (s.data.length + 1) (jskipWs s.data) with
  | .error e => .error e
  | .ok (v, rest) =>
    if (jskipWs rest).isEmpty then .ok v else .error .jsonDecodeError

/-! ## `training/evaluate_models.py` — fuzzy matchers

Promise and contradiction entries reach `match_promises` /
`match_contradictions` as Python dicts; the functions read exactly the
keys `text`/`confidence` resp. `severity`/`description` through
`dict.get` with a default, which the data model types as string (resp.
float in `[0,1]`).  The dicts are therefore embedded at the data-model
boundary as records of optional fields, `.get(k, d)` becoming
`Option.getD`. -/

/-- A predicted or expected promise entry as accessed by
`match_promises` (`dict.get("text", "")`, `dict.get("confidence", 0.5)`). -/
structure PromiseD where
  text : Option String
  confidence : Option Rat

/-- A predicted or expected contradiction entry as accessed by
`match_contradictions`. -/
structure ContraD where
  severity : Option String
  description : Option String

/-- The fields of the `EvalResult` dataclass touched by the two
matchers (`training/evaluate_models.py`, lines 35–52). -/
structure EvalResult where
  promise_tp : Nat
  promise_fp : Nat
  promise_fn : Nat
  contradiction_tp : Nat
  contradiction_fp : Nat
  contradiction_fn : Nat
  confidence_errors : List Rat
deriving DecidableEq

/-- A fresh result record with all counters zero. -/
def rzero : EvalResult := ⟨0, 0, 0, 0, 0, 0, []⟩

/-- Python `set(s.lower().strip().split())` (`word_overlap`, lines
125–126): the deduplicated list of lowercase whitespace tokens.  A
Python set is unordered; only emptiness and cardinalities of this list
and of its intersections are ever consumed, for which the deduplicated
list is a faithful representation. -/
def wordSet (s : String) : List String :=
  (pySplitWs (pyStrip (pyLowerStr s))).dedup

/-- `word_overlap` (`training/evaluate_models.py`, lines 123–131):
word-level overlap `|A ∩ B| / min(|A|, |B|)`, `0.0` when either token
set is empty (the final `if smaller > 0` guard of the source is kept
although it is subsumed by the emptiness test). -/
def word_overlap (a b : String) : Rat :=
  let words_a := wordSet a
  let words_b := wordSet b
  if words_a.isEmpty ∨ words_b.isEmpty then 0
  else
    let intersection := words_a.filter (· ∈ words_b)
    let smaller := min words_a.length words_b.length
    if 0 < smaller then (intersection.length : Rat) / (smaller : Rat) else 0

/-- Inner loop of `match_promises` (lines 148–154): scan `expected` with
index `i`, skipping consumed indices, keeping the first index whose
overlap strictly beats the best so far.  Returns `(best_idx, best_overlap)`,
starting from `(-1, 0.0)`. -/
def bestLoop (predText : String) : List PromiseD → Nat → List Nat → Int → Rat → Int × Rat
  | [], _, _, bi, bo => (bi, bo)
  | e :: es, i, matched, bi, bo =>
    if i ∈ matched then bestLoop predText es (i + 1) matched bi bo
    else
      let overlap := word_overlap predText (e.text.getD "")
      if bo < overlap then bestLoop predText es (i + 1) matched (Int.ofNat i) overlap
      else bestLoop predText es (i + 1) matched bi bo

/-- Best not-yet-matched expected candidate for one predicted promise. -/
def bestPromise (predText : String) (expected : List PromiseD) (matched : List Nat) :
    Int × Rat :=
  bestLoop predText expected 0 matched (-1) 0

/-- Outer loop of `match_promises` (lines 143–164), instrumented: besides
the updated result it returns the list of matches recorded, as pairs
`(predicted index, expected index)`, and the final consumed-index list
(the source's `matched_expected` set, in insertion order).  `k` is the
index of the first remaining predicted entry. -/
def matchPromisesAux :
    List PromiseD → List PromiseD → Nat → List Nat → EvalResult →
      List (Nat × Nat) × List Nat × EvalResult
  | [], _, _, matched, r => ([], matched, r)
  | p :: ps, expected, k, matched, r =>
    let b := bestPromise (p.text.getD "") expected matched
    if 4/5 ≤ b.2 ∧ 0 ≤ b.1 then
      let j := b.1.toNat
      let predConf := p.confidence.getD (1/2)
      let expConf := (expected.getD j ⟨none, none⟩).confidence.getD (1/2)
      let r1 := { r with promise_tp := r.promise_tp + 1,
                         confidence_errors := r.confidence_errors ++ [|predConf - expConf|] }
      let rest := matchPromisesAux ps expected (k + 1) (matched ++ [j]) r1
      ((k, j) :: rest.1, rest.2.1, rest.2.2)
    else
      matchPromisesAux ps expected (k + 1) matched
        { r with promise_fp := r.promise_fp + 1 }

/-- `match_promises` (`training/evaluate_models.py`, lines 134–166):
greedy matching of predicted promises against expected ones; after the
loop, expected entries never consumed are added to the false-negative
counter. -/
def match_promises (predicted expected : List PromiseD) (result : EvalResult) : EvalResult :=
  let t := matchPromisesAux predicted expected 0 [] result
  { t.2.2 with promise_fn := t.2.2.promise_fn + (expected.length - t.2.1.length) }

/-- `pred.get("severity", "").lower().strip()` — the severity
normalisation applied to both sides (lines 179 and 187). -/
def sevNorm (sev : Option String) : String := pyStrip (pyLowerStr (sev.getD ""))

/-- Inner loop of `match_contradictions` (lines 184–193): skip consumed
indices, skip candidates whose normalised severity differs (the hard
gate, checked before any overlap is computed), keep the strict best
description overlap. -/
def bestContraLoop (predSev predDesc : String) :
    List ContraD → Nat → List Nat → Int → Rat → Int × Rat
  | [], _, _, bi, bs => (bi, bs)
  | e :: es, i, matched, bi, bs =>
    if i ∈ matched then bestContraLoop predSev predDesc es (i + 1) matched bi bs
    else if predSev ≠ sevNorm e.severity then
      bestContraLoop predSev predDesc es (i + 1) matched bi bs
    else
      let overlap := word_overlap predDesc (e.description.getD "")
      if bs < overlap then bestContraLoop predSev predDesc es (i + 1) matched (Int.ofNat i) overlap
      else bestContraLoop predSev predDesc es (i + 1) matched bi bs

/-- Best severity-compatible unconsumed expected candidate for one
predicted contradiction. -/
def bestContra (predSev predDesc : String) (expected : List ContraD) (matched : List Nat) :
    Int × Rat :=
  bestContraLoop predSev predDesc expected 0 matched (-1) 0

/-- Outer loop of `match_contradictions` (lines 178–199), instrumented
like `matchPromisesAux`. -/
def matchContradictionsAux :
    List ContraD → List ContraD → Nat → List Nat → EvalResult →
      List (Nat × Nat) × List Nat × EvalResult
  | [], _, _, matched, r => ([], matched, r)
  | p :: ps, expected, k, matched, r =>
    let b := bestContra (sevNorm p.severity) (p.description.getD "") expected matched
    if 1/2 ≤ b.2 ∧ 0 ≤ b.1 then
      let j := b.1.toNat
      let r1 := { r with contradiction_tp := r.contradiction_tp + 1 }
      let rest := matchContradictionsAux ps expected (k + 1) (matched ++ [j]) r1
      ((k, j) :: rest.1, rest.2.1, rest.2.2)
    else
      matchContradictionsAux ps expected (k + 1) matched
        { r with contradiction_fp := r.contradiction_fp + 1 }

/-- `match_contradictions` (`training/evaluate_models.py`, lines
169–201). -/
def match_contradictions (predicted expected : List ContraD) (result : EvalResult) :
    EvalResult :=
  let t := matchContradictionsAux predicted expected 0 [] result
  { t.2.2 with
      contradiction_fn := t.2.2.contradiction_fn + (expected.length - t.2.1.length) }

/-! ## Markdown-fence extraction and the two JSON salvage parsers -/

/-- The backtick character. -/
def btick : Char := '\x60'

/-- Inner loop of the fence regex: after the opening fence header, the
lazy group `(.*?)\n?` ends at the first subsequent triple backtick; the
optional newline directly before the closing fence is consumed by the
regex, not captured. -/
def fenceClose : List Char → List Char → Option String
  | [], _ => none
  | c :: rest, acc =>
    if hasPfx [btick, btick, btick] (c :: rest) then
      match acc with
      | '\n' :: acc2 => some ⟨acc2.reverse⟩
      | _ => some ⟨acc.reverse⟩
    else fenceClose rest (c :: acc)

/-- Try to match the fence pattern anchored at the start of `cs`:
literal ```` ``` ````, optional `json` tag, greedy whitespace, then the
lazily captured body up to the closing fence. -/
def fenceAt (cs : List Char) : Option String :=
  if hasPfx [btick, btick, btick] cs then
    let cs1 := cs.drop 3
    let cs2 := if hasPfx "json".data cs1 then cs1.drop 4 else cs1
    fenceClose (cs2.dropWhile pyIsSpace) []
  else none

/-- Leftmost match of `re.search(r"```(?:json)?\s*\n?(.*?)\n?```", text,
re.DOTALL)`, returning the captured group.  The regex can only start at
a literal backtick; candidate start positions are tried left to right. -/
def fenceSearch : List Char → Option String
  | [] => none
  | c :: rest =>
    match fenceAt (c :: rest) with
    | some g => some g
    | none => fenceSearch rest

/-- Index of the first occurrence of `c` (`str.find`), as an option. -/
def findIdx (cs : List Char) (c : Char) : Option Nat := cs.findIdx? (· = c)

/-- Index of the last occurrence of `c` (`str.rfind`), as an option. -/
def rfindIdx (cs : List Char) (c : Char) : Option Nat :=
  match (cs.reverse).findIdx? (· = c) with
  | some r => some (cs.length - 1 - r)
  | none => none

/-- `extract_json_from_text` (`training/bedrock_data_gen.py`, lines
130–143).  Order of attempts: strip whitespace; `json.loads` as-is
(only `JSONDecodeError` is caught); a fenced block, if the regex
matches (a parse failure here is NOT caught and propagates); the
substring from the first `{` to the last `}`, if both exist (a parse
failure propagates); otherwise raise `JSONDecodeError`.  An `.error`
result models an exception reaching the caller. -/
def extract_json_from_text (text : String) : Except Exn JsonValue :=
  let t := pyStrip text
  match json_loads t with
  | .ok v => .ok v
  | .error _ =>
    match fenceSearch t.data with
    | some inner => json_loads (pyStrip inner)
    | none =>
      match findIdx t.data '{', rfindIdx t.data '}' with
      | some s, some e => json_loads ⟨(t.data.drop s).take (e + 1 - s)⟩
      | _, _ => .error .jsonDecodeError

/-- The text actually handed to `json.loads` by `parse_json_safe`
(`training/eval_difficulty.py`, lines 33–43): strip; when the stripped
text starts with a fence, drop every line whose stripped form starts
with a fence and re-strip the join. -/
def pjsTransform (text : String) : String :=
  let t := pyStrip text
  if pyStartsWith t "```" then
    pyStrip (pyJoinNl ((pySplitNl t).filter (fun l => ¬ pyStartsWith (pyStrip l) "```")))
  else t

/-- `parse_json_safe` (`training/eval_difficulty.py`, lines 33–43):
parse the transformed text, returning `None` instead of raising on
failure (it catches `JSONDecodeError` and `ValueError`, which cover
every error `json.loads` can produce on a string). -/
def parse_json_safe (text : String) : Option JsonValue :=
  (json_loads (pjsTransform text)).toOption

/-! ## `eval_extraction.py` — `evaluate_response` -/

/-- The metrics dict built by `evaluate_response`. -/
structure MetricsE where
  valid_json : Nat
  promise_count_match : Nat
  type_precision : Rat
  contradiction_detection : Nat
deriving DecidableEq

/-- Type-precision block of `evaluate_response` (lines 61–67):
positional comparison of `[p["type"] for p in expected_promises]`
against `[p.get("type", "") for p in parsed_promises[:len]]`, vacuous
`1.0` when `expected_promises` is falsy. -/
def typeBlockResp (expectedPromises parsedPromises : JsonValue) : Except Exn Rat :=
  if pyTruthy expectedPromises then
    match asIterList expectedPromises with
    | .error e => .error e
    | .ok eElems =>
      match mapExc (fun p => pyGetItem p "type") eElems with
      | .error e => .error e
      | .ok eTypes =>
        match pySliceIter parsedPromises eTypes.length with
        | .error e => .error e
        | .ok pSliced =>
          match mapExc (fun p => pyGet p "type" (.str "")) pSliced with
          | .error e => .error e
          | .ok pTypes =>
            pyDiv (((eTypes.zip pTypes).countP (fun q => pyEq q.1 q.2) : Nat) : Rat)
              (eTypes.length : Rat)
  else .ok 1

/-- `evaluate_response` (`eval_extraction.py`, lines 41–73): a failed
`json.loads` of the response text returns the all-zero metrics dict
without raising; afterwards exceptions propagate. -/
def evaluate_response (response_text : String) (expected : JsonValue) :
    Except Exn MetricsE :=
  match json_loads response_text with
  | .error _ => .ok ⟨0, 0, 0, 0⟩
  | .ok parsed =>
    match pyGet expected "promises" (.arr []) with
    | .error e => .error e
    | .ok expectedPromises =>
      match pyGet parsed "promises" (.arr []) with
      | .error e => .error e
      | .ok parsedPromises =>
        match pyLen parsedPromises with
        | .error e => .error e
        | .ok lenPP =>
          match pyLen expectedPromises with
          | .error e => .error e
          | .ok lenEP =>
            let pcm : Nat := if lenPP = lenEP then 1 else 0
            match typeBlockResp expectedPromises parsedPromises with
            | .error e => .error e
            | .ok tp =>
              match pyGet expected "contradictions" (.arr []) with
              | .error e => .error e
              | .ok expC =>
                match pyGet parsed "contradictions" (.arr []) with
                | .error e => .error e
                | .ok parC =>
                  match pyLen expC with
                  | .error e => .error e
                  | .ok lenEC =>
                    match pyLen parC with
                    | .error e => .error e
                    | .ok lenPC =>
                      .ok ⟨1, pcm, tp,
                        if (decide (0 < lenEC)) = (decide (0 < lenPC)) then 1 else 0⟩

/-! ## `training/eval_difficulty.py` — `evaluate_example` -/

/-- The scores dict built by `evaluate_example`. -/
structure DiffScores where
  valid_json : Rat
  promise_count : Rat
  type_precision : Rat
  contradiction : Rat
deriving DecidableEq

/-- Type-precision block of `evaluate_example` (lines 62–68): when
`exp_promises` is falsy, `1.0` exactly if `pred_promises` is falsy too,
else `0.0`; otherwise compare the two sorted type lists positionally. -/
def typeBlockDiff (expPromises predPromises : JsonValue) : Except Exn Rat :=
  if ¬ pyTruthy expPromises then
    .ok (if ¬ pyTruthy predPromises then 1 else 0)
  else
    match asIterList expPromises with
    | .error e => .error e
    | .ok eElems =>
      match mapExc (fun p => pyGet p "type" (.str "")) eElems with
      | .error e => .error e
      | .ok eTypes =>
        match pySorted eTypes with
        | .error e => .error e
        | .ok eSorted =>
          match asIterList predPromises with
          | .error e => .error e
          | .ok pElems =>
            match mapExc (fun p => pyGet p "type" (.str "")) pElems with
            | .error e => .error e
            | .ok pTypes =>
              match pySorted pTypes with
              | .error e => .error e
              | .ok pSorted =>
                pyDiv (((eSorted.zip pSorted).countP (fun q => pyEq q.1 q.2) : Nat) : Rat)
                  (eSorted.length : Rat)

/-- `evaluate_example` (`training/eval_difficulty.py`, lines 46–80):
`None` input short-circuits to the all-zero scores dict; otherwise the
four `.get` accesses, the two lengths, the type-precision block and the
contradiction comparison run in source order, exceptions propagating. -/
def evaluate_example (predicted : Option JsonValue) (expected : JsonValue) :
    Except Exn DiffScores :=
  match predicted with
  | none => .ok ⟨0, 0, 0, 0⟩
  | some pred =>
    match pyGet expected "promises" (.arr []) with
    | .error e => .error e
    | .ok expPromises =>
      match pyGet pred "promises" (.arr []) with
      | .error e => .error e
      | .ok predPromises =>
        match pyGet expected "contradictions" (.arr []) with
        | .error e => .error e
        | .ok expContra =>
          match pyGet pred "contradictions" (.arr []) with
          | .error e => .error e
          | .ok predContra =>
            match pyLen predPromises with
            | .error e => .error e
            | .ok lenPP =>
              match pyLen expPromises with
              | .error e => .error e
              | .ok lenEP =>
                let promise_count : Rat := if lenPP = lenEP then 1 else 0
                match typeBlockDiff expPromises predPromises with
                | .error e => .error e
                | .ok tp =>
                  match pyLen expContra with
                  | .error e => .error e
                  | .ok lenEC =>
                    match pyLen predContra with
                    | .error e => .error e
                    | .ok lenPC =>
                      .ok ⟨1, promise_count, tp,
                        if (decide (0 < lenEC)) = (decide (0 < lenPC)) then 1 else 0⟩

/-! ## `training/run_weave_evals.py` — `ExtractionScorer.score` -/

/-- The results dict built by `ExtractionScorer.score`. -/
structure WeaveScore where
  json_valid : Bool
  promise_count_match : Bool
  type_precision : Rat
  contradiction_detection : Bool
deriving DecidableEq

/-- Type-precision block of `ExtractionScorer.score` (lines 84–90):
sorted predicted types against sorted expected types, positionally;
vacuous `1.0` when `exp_promises` is falsy (no sorting happens then). -/
def typeBlockScorer (predPromises expPromises : JsonValue) : Except Exn Rat :=
  if pyTruthy expPromises then
    match asIterList predPromises with
    | .error e => .error e
    | .ok pElems =>
      match mapExc (fun p => pyGet p "type" (.str "")) pElems with
      | .error e => .error e
      | .ok pTypes =>
        match pySorted pTypes with
        | .error e => .error e
        | .ok pSorted =>
          match asIterList expPromises with
          | .error e => .error e
          | .ok eElems =>
            match mapExc (fun p => pyGet p "type" (.str "")) eElems with
            | .error e => .error e
            | .ok eTypes =>
              match pySorted eTypes with
              | .error e => .error e
              | .ok eSorted =>
                pyDiv (((pSorted.zip eSorted).countP (fun q => pyEq q.1 q.2) : Nat) : Rat)
                  (eSorted.length : Rat)
  else .ok 1

/-- `ExtractionScorer.score` (`training/run_weave_evals.py`, lines
60–94), with `output.get("response", "")` already projected to the
response string by the caller.  A response that fails `json.loads`
yields the all-failure dict; an expected string that fails yields the
dict with only `json_valid` true; afterwards exceptions propagate. -/
def extractionScorerScore (response expected : String) : Except Exn WeaveScore :=
  match json_loads response with
  | .error _ => .ok ⟨false, false, 0, false⟩
  | .ok pred =>
    match json_loads expected with
    | .error _ => .ok ⟨true, false, 0, false⟩
    | .ok exp =>
      match pyGet pred "promises" (.arr []) with
      | .error e => .error e
      | .ok predPromises =>
        match pyGet exp "promises" (.arr []) with
        | .error e => .error e
        | .ok expPromises =>
          match pyLen predPromises with
          | .error e => .error e
          | .ok lenPP =>
            match pyLen expPromises with
            | .error e => .error e
            | .ok lenEP =>
              let pcm : Bool := lenPP = lenEP
              match typeBlockScorer predPromises expPromises with
              | .error e => .error e
              | .ok tp =>
                match pyGet pred "contradictions" (.arr []) with
                | .error e => .error e
                | .ok predC =>
                  match pyLen predC with
                  | .error e => .error e
                  | .ok lenPC =>
                    match pyGet exp "contradictions" (.arr []) with
                    | .error e => .error e
                    | .ok expC =>
                      match pyLen expC with
                      | .error e => .error e
                      | .ok lenEC =>
                        .ok ⟨true, pcm, tp, (decide (0 < lenPC)) = (decide (0 < lenEC))⟩

/-! ## Scorecard aggregation — `eval_citizens.py` `avg` and
`eval_extraction.py` `avg_metrics` -/

/-- A citizens scorecard: the six keys every entry of the results lists
carries (`eval_citizens.py`, lines 156–158 and 171–172). -/
structure CitScorecard where
  valid_json : Rat
  has_reactions : Rat
  reaction_count_match : Rat
  mood_accuracy : Rat
  dialogue_quality : Rat
  latency_ms : Rat
deriving DecidableEq

/-- The metric keys of a citizens scorecard. -/
inductive CitKey where
  | valid_json
  | has_reactions
  | reaction_count_match
  | mood_accuracy
  | dialogue_quality
  | latency_ms
deriving DecidableEq

/-- Scorecard field lookup `r[key]`. -/
def citGet (r : CitScorecard) : CitKey → Rat
  | .valid_json => r.valid_json
  | .has_reactions => r.has_reactions
  | .reaction_count_match => r.reaction_count_match
  | .mood_accuracy => r.mood_accuracy
  | .dialogue_quality => r.dialogue_quality
  | .latency_ms => r.latency_ms

/-- `avg` (`eval_citizens.py`, lines 168–169):
`sum(r[key] for r in results) / len(results)` — the division is the
plain Python `/`, raising `ZeroDivisionError` on an empty list. -/
def avg (results : List CitScorecard) (key : CitKey) : Except Exn Rat :=
  pyDiv ((results.map (fun r => citGet r key)).sum) (results.length : Rat)

/-- An extraction scorecard: the five `METRIC_NAMES` keys of
`eval_extraction.py` (line 18). -/
structure ExtScorecard where
  valid_json : Rat
  promise_count_match : Rat
  type_precision : Rat
  contradiction_detection : Rat
  latency_ms : Rat
deriving DecidableEq

/-- Per-key averages over one list of extraction scorecards — the inner
`for key in METRIC_NAMES` loop of `avg_metrics` (lines 146–147 and
151–153), in `METRIC_NAMES` order.  Plain `/`: empty input raises
`ZeroDivisionError` at the first key. -/
def avgCard (items : List ExtScorecard) : Except Exn ExtScorecard :=
  match pyDiv ((items.map (fun m => m.valid_json)).sum) (items.length : Rat) with
  | .error e => .error e
  | .ok a =>
    match pyDiv ((items.map (fun m => m.promise_count_match)).sum) (items.length : Rat) with
    | .error e => .error e
    | .ok b =>
      match pyDiv ((items.map (fun m => m.type_precision)).sum) (items.length : Rat) with
      | .error e => .error e
      | .ok c =>
        match pyDiv ((items.map (fun m => m.contradiction_detection)).sum) (items.length : Rat) with
        | .error e => .error e
        | .ok d =>
          match pyDiv ((items.map (fun m => m.latency_ms)).sum) (items.length : Rat) with
          | .error e => .error e
          | .ok l => .ok ⟨a, b, c, d, l⟩

/-- Effectful accumulation of the per-difficulty averages — the outer
`for diff, items in results_by_diff.items()` loop of `avg_metrics`. -/
def avgByDiff : List (String × List ExtScorecard) →
    Except Exn (List (String × ExtScorecard))
  | [] => .ok []
  | (d, items) :: rest =>
    match avgCard items with
    | .error e => .error e
    | .ok a =>
      match avgByDiff rest with
      | .error e => .error e
      | .ok tail => .ok ((d, a) :: tail)

/-- `avg_metrics` (`eval_extraction.py`, lines 140–154): per-difficulty
averages first (`by_diff`), then the overall average over the
concatenation of all items (`all_metrics`).  The input dict is embedded
as an insertion-ordered association list. -/
def avg_metrics (results_by_diff : List (String × List ExtScorecard)) :
    Except Exn (List (String × ExtScorecard) × ExtScorecard) :=
  match avgByDiff results_by_diff with
  | .error e => .error e
  | .ok by_diff =>
    match avgCard (results_by_diff.map (fun p => p.2)).flatten with
    | .error e => .error e
    | .ok overall => .ok (by_diff, overall)

/-! ## Spec-side definition for the overlap claim (C7) -/

/-- The overlap formula exactly as the specification words it (§4.3):
`|tokens(a) ∩ tokens(b)| / min(|tokens(a)|, |tokens(b)|)`, or `0` if
either side has no tokens.  Written independently of `word_overlap` to
be compared with it. -/
def specOverlap (a b : String) : Rat :=
  if wordSet a = [] ∨ wordSet b = [] then 0
  else ((wordSet a).filter (· ∈ wordSet b)).length /
    (min (wordSet a).length (wordSet b).length : Rat)

/-! ## Helper lemmas -/

/-- Intersection cardinality of duplicate-free lists is symmetric. -/
theorem interLen_comm (A B : List String) (hA : A.Nodup) (hB : B.Nodup) :
    (A.filter (· ∈ B)).length = (B.filter (· ∈ A)).length := by
  have hAf : (A.filter (· ∈ B)).toFinset = A.toFinset ∩ B.toFinset := by
    ext x
    simp [List.mem_filter, Finset.mem_inter]
  have hBf : (B.filter (· ∈ A)).toFinset = B.toFinset ∩ A.toFinset := by
    ext x
    simp [List.mem_filter, Finset.mem_inter]
  have h1 : (A.filter (· ∈ B)).length = (A.filter (· ∈ B)).toFinset.card :=
    (List.toFinset_card_of_nodup (hA.filter _)).symm
  have h2 : (B.filter (· ∈ A)).length = (B.filter (· ∈ A)).toFinset.card :=
    (List.toFinset_card_of_nodup (hB.filter _)).symm
  rw [h1, h2, hAf, hBf, Finset.inter_comm]

/-- The token list of a string has no duplicates. -/
theorem wordSet_nodup (s : String) : (wordSet s).Nodup := List.nodup_dedup _

/-- C7: for every pair of strings the overlap function equals the
spec's formula — intersection cardinality of the lowercase
whitespace-token sets over the smaller set size, `0` when either side
has no tokens — and is symmetric. -/
theorem word_overlap_spec_and_symm (a b : String) :
    word_overlap a b = specOverlap a b ∧ word_overlap a b = word_overlap b a := by
  constructor
  · unfold word_overlap specOverlap
    by_cases hA : wordSet a = []
    · simp [hA]
    · by_cases hB : wordSet b = []
      · simp [hB]
      · have hA' : ¬ (wordSet a).isEmpty := by simpa [List.isEmpty_iff] using hA
        have hB' : ¬ (wordSet b).isEmpty := by simpa [List.isEmpty_iff] using hB
        have hpos : 0 < min (wordSet a).length (wordSet b).length := by
          simp [List.length_pos, hA, hB]
        simp only [hA, hB, hA', hB', or_self, if_false, if_pos hpos]
        simp [hA', hB']
  · unfold word_overlap
    by_cases hA : (wordSet a).isEmpty
    · by_cases hB : (wordSet b).isEmpty <;> simp [hA, hB]
    · by_cases hB : (wordSet b).isEmpty
      · simp [hA, hB]
      · have hAn : wordSet a ≠ [] := by simpa [List.isEmpty_iff] using hA
        have hBn : wordSet b ≠ [] := by simpa [List.isEmpty_iff] using hB
        simp only [hA, hB, or_self, if_false]
        rw [interLen_comm _ _ (wordSet_nodup a) (wordSet_nodup b), Nat.min_comm]

/-- C3 counterexample: aggregating the empty sequence of scorecards
raises the generic arithmetic `ZeroDivisionError`, which is not the
`EmptyBatch` error kind the specification promises. -/
theorem avg_empty_not_emptyBatch :
    avg [] CitKey.valid_json = .error .zeroDivisionError ∧
      Exn.zeroDivisionError ≠ Exn.emptyBatch :=
  ⟨rfl, by decide⟩

/-- C3 (amended): on the empty scorecard sequence the aggregators
(`avg` of `eval_citizens.py` and `avg_metrics` of `eval_extraction.py`)
raise the generic `ZeroDivisionError` — there is no explicit
`EmptyBatch` error kind — and on every non-empty sequence `avg` returns
the per-key arithmetic mean. -/
theorem avg_mean_and_zero_division :
    (∀ k, avg [] k = .error .zeroDivisionError) ∧
    (∀ (rs : List CitScorecard) (k : CitKey), rs ≠ [] →
      avg rs k = .ok ((rs.map (fun r => citGet r k)).sum / (rs.length : Rat))) ∧
    avg_metrics [] = .error .zeroDivisionError := by
  refine ⟨fun k => rfl, fun rs k h => ?_, rfl⟩
  have hlen : ((rs.length : Nat) : Rat) ≠ 0 := by
    simpa [Nat.cast_eq_zero, List.length_eq_zero] using h
  unfold avg pyDiv
  rw [if_neg hlen]

/-- C3 witness: the amended theorem applied to a concrete singleton
batch. -/
theorem avg_mean_and_zero_division_witness :
    avg [⟨1, 1, 1, 1, 1, 1⟩] CitKey.valid_json =
      .ok ((([⟨1, 1, 1, 1, 1, 1⟩] : List CitScorecard).map
        (fun r => citGet r CitKey.valid_json)).sum /
        (([⟨1, 1, 1, 1, 1, 1⟩] : List CitScorecard).length : Rat)) :=
  avg_mean_and_zero_division.2.1 [⟨1, 1, 1, 1, 1, 1⟩] CitKey.valid_json
    (List.cons_ne_nil _ _)

/-- C1 counterexample: with an empty expected promise list and a
non-empty predicted one, `evaluate_example` (an extraction scorer named
by the claim) yields `type_precision = 0`, not the claimed `1.0`. -/
theorem evaluate_example_empty_expected_cx :
    evaluate_example
      (some (.obj [("promises",
        .arr [.obj [("type", .str "ecology"), ("text", .str "plant trees")]])]))
      (.obj [("promises", .arr [])]) = .ok ⟨1, 0, 0, 1⟩ ∧ (0 : Rat) ≠ 1 :=
  ⟨rfl, by norm_num⟩

/-- C1 (amended): when the expected promise list is empty,
`ExtractionScorer.score` yields `type_precision = 1.0` regardless of the
predicted promise list, while `evaluate_example` of
`training/eval_difficulty.py` yields `1.0` exactly when the predicted
list is empty too, and `0.0` otherwise. -/
theorem type_precision_empty_expected_amended :
    (∀ (response expected : String) (pred exp : JsonValue) (pl : List JsonValue)
        (pcv ecv : JsonValue) (n1 n2 : Nat),
      json_loads response = .ok pred →
      json_loads expected = .ok exp →
      pyGet pred "promises" (.arr []) = .ok (.arr pl) →
      pyGet exp "promises" (.arr []) = .ok (.arr []) →
      pyGet pred "contradictions" (.arr []) = .ok pcv →
      pyLen pcv = .ok n1 →
      pyGet exp "contradictions" (.arr []) = .ok ecv →
      pyLen ecv = .ok n2 →
      ∃ m : WeaveScore, extractionScorerScore response expected = .ok m ∧
        m.type_precision = 1) ∧
    (∀ (pred expected : JsonValue) (pl : List JsonValue)
        (pcv ecv : JsonValue) (n1 n2 : Nat),
      pyGet expected "promises" (.arr []) = .ok (.arr []) →
      pyGet pred "promises" (.arr []) = .ok (.arr pl) →
      pyGet expected "contradictions" (.arr []) = .ok ecv →
      pyGet pred "contradictions" (.arr []) = .ok pcv →
      pyLen ecv = .ok n2 →
      pyLen pcv = .ok n1 →
      ∃ s : DiffScores, evaluate_example (some pred) expected = .ok s ∧
        s.type_precision = (if pl.isEmpty then 1 else 0)) := by
  constructor
  · intro response expected pred exp pl pcv ecv n1 n2 h1 h2 h3 h4 h5 h6 h7 h8
    have ht : typeBlockScorer (.arr pl) (.arr []) = .ok 1 := by
      unfold typeBlockScorer
      simp [pyTruthy]
    have hl1 : pyLen (.arr pl) = .ok pl.length := rfl
    have hl2 : pyLen (.arr ([] : List JsonValue)) = .ok 0 := rfl
    unfold extractionScorerScore
    simp only [h1, h2, h3, h4, hl1, hl2, ht, h5, h6, h7, h8]
    exact ⟨_, rfl, rfl⟩
  · intro pred expected pl pcv ecv n1 n2 h1 h2 h3 h4 h5 h6
    have ht : typeBlockDiff (.arr []) (.arr pl) =
        .ok (if pl.isEmpty then 1 else 0) := by
      unfold typeBlockDiff
      by_cases hpl : pl.isEmpty <;> simp [pyTruthy, hpl]
    have hl1 : pyLen (.arr pl) = .ok pl.length := rfl
    have hl2 : pyLen (.arr ([] : List JsonValue)) = .ok 0 := rfl
    unfold evaluate_example
    simp only [h1, h2, h3, h4, hl1, hl2, ht, h5, h6]
    exact ⟨_, rfl, rfl⟩

/-- C1 witness: the amended theorem applied at concrete inputs — a
predicted response with one promise against an expected output with an
empty promise list. -/
theorem type_precision_empty_expected_amended_witness :
    ∃ m : WeaveScore,
      extractionScorerScore "\x7b\"promises\": [\x7b\"type\": \"eco\"\x7d]\x7d"
        "\x7b\"promises\": []\x7d" = .ok m ∧ m.type_precision = 1 :=
  type_precision_empty_expected_amended.1
    "\x7b\"promises\": [\x7b\"type\": \"eco\"\x7d]\x7d" "\x7b\"promises\": []\x7d"
    (.obj [("promises", .arr [.obj [("type", .str "eco")]])])
    (.obj [("promises", .arr [])])
    [.obj [("type", .str "eco")]] (.arr []) (.arr []) 0 0
    rfl rfl rfl rfl rfl rfl rfl rfl

/-- C2 counterexample: on the input `"not json"` — no fence, no braces —
`extract_json_from_text` raises `json.JSONDecodeError` to its caller
(modelled by the `.error` result) instead of returning an invalid
sentinel as the claim states. -/
theorem extract_json_raises_cx :
    extract_json_from_text "not json" = .error .jsonDecodeError := rfl

/-- C2 (amended): the two structured-output parsers behave differently
from the claim.  `extract_json_from_text` strips whitespace and tries
`json.loads` as-is FIRST; only on failure does it try a fenced block,
then the substring from the first `\x7b` to the last `\x7d`, and it
RAISES `JSONDecodeError` to its caller when everything fails (and
whenever the fenced-block parse itself fails).  `parse_json_safe` never
raises — it returns the parse of its fence-line-filtered transform or
the `None` sentinel — but has no brace-extraction fallback; the final
conjunct exhibits an input where only `extract_json_from_text` salvages
the embedded object. -/
theorem structured_output_parser_amended :
    (∀ (t : String) (v : JsonValue), json_loads (pyStrip t) = .ok v →
      extract_json_from_text t = .ok v) ∧
    (∀ (t : String) (e : Exn) (inner : String),
      json_loads (pyStrip t) = .error e →
      fenceSearch (pyStrip t).data = some inner →
      extract_json_from_text t = json_loads (pyStrip inner)) ∧
    (∀ (t : String) (e : Exn),
      json_loads (pyStrip t) = .error e →
      fenceSearch (pyStrip t).data = none →
      findIdx (pyStrip t).data '{' = none →
      extract_json_from_text t = .error .jsonDecodeError) ∧
    (∀ t : String, parse_json_safe t = (json_loads (pjsTransform t)).toOption) ∧
    (parse_json_safe "xx \x7b\"a\": true\x7d yy" = none ∧
      extract_json_from_text "xx \x7b\"a\": true\x7d yy" =
        .ok (.obj [("a", .bool true)])) := by
  refine ⟨?_, ?_, ?_, fun t => rfl, rfl, rfl⟩
  · intro t v h
    unfold extract_json_from_text
    simp only [h]
  · intro t e inner h hf
    unfold extract_json_from_text
    simp only [h, hf]
  · intro t e h hf hb
    unfold extract_json_from_text
    simp only [h, hf, findIdx] at *
    simp [h, hf, hb, findIdx]

/-- C2 witness: the amended theorem applied to concrete inputs — a
plain JSON object parses as-is, and a fence-free brace-free non-JSON
text makes `extract_json_from_text` raise. -/
theorem structured_output_parser_amended_witness :
    extract_json_from_text " \x7b\x7d " = .ok (.obj []) ∧
      extract_json_from_text "definitely nothing here" = .error .jsonDecodeError :=
  ⟨structured_output_parser_amended.1 " \x7b\x7d " (.obj []) rfl,
   structured_output_parser_amended.2.2.1 "definitely nothing here" .jsonDecodeError
     rfl rfl rfl⟩

/-- C9: every input text whose `json.loads` fails (even after
`parse_json_safe`'s fence-stripping transform) is scored to the
all-zero scorecard without raising: `evaluate_response` returns the
zero metrics for any expected value, `parse_json_safe` returns the
`None` sentinel, and `evaluate_example` maps `None` to the zero scores
dict. -/
theorem malformed_text_scores_zero (text : String) (e1 e2 : Exn)
    (h1 : json_loads text = .error e1)
    (h2 : json_loads (pjsTransform text) = .error e2) :
    (∀ expected : JsonValue, evaluate_response text expected = .ok ⟨0, 0, 0, 0⟩) ∧
    parse_json_safe text = none ∧
    (∀ expected : JsonValue, evaluate_example none expected = .ok ⟨0, 0, 0, 0⟩) := by
  refine ⟨fun expected => ?_, ?_, fun expected => rfl⟩
  · unfold evaluate_response
    simp only [h1]
  · unfold parse_json_safe
    simp only [h2, Except.toOption]

/-- C9 witness: the theorem applied to the claim's own example input
`"not json"`. -/
theorem malformed_text_scores_zero_witness :
    (∀ expected : JsonValue,
      evaluate_response "not json" expected = .ok ⟨0, 0, 0, 0⟩) ∧
    parse_json_safe "not json" = none ∧
    (∀ expected : JsonValue, evaluate_example none expected = .ok ⟨0, 0, 0, 0⟩) :=
  malformed_text_scores_zero "not json" .jsonDecodeError .jsonDecodeError rfl rfl

/-- Case analysis for the promise inner loop: it either returns the
running best unchanged, or selects an unconsumed index `i + j` whose
overlap strictly beats the initial best. -/
theorem bestLoop_cases (pt : String) :
    ∀ (es : List PromiseD) (i : Nat) (m : List Nat) (bi : Int) (bo : Rat),
      bestLoop pt es i m bi bo = (bi, bo) ∨
      ∃ j, j < es.length ∧ (i + j) ∉ m ∧
        bestLoop pt es i m bi bo =
          (Int.ofNat (i + j), word_overlap pt ((es.getD j ⟨none, none⟩).text.getD "")) ∧
        bo < word_overlap pt ((es.getD j ⟨none, none⟩).text.getD "") := by
  intro es
  induction es with
  | nil => intro i m bi bo; left; rfl
  | cons e es ih =>
    intro i m bi bo
    simp only [bestLoop]
    by_cases hm : i ∈ m
    · rw [if_pos hm]
      rcases ih (i + 1) m bi bo with h | ⟨j, hj, hnm, heq, hlt⟩
      · left; exact h
      · right
        refine ⟨j + 1, by simpa using hj, ?_, ?_, ?_⟩
        · have : i + (j + 1) = (i + 1) + j := by omega
          rw [this]; exact hnm
        · have h1 : i + (j + 1) = (i + 1) + j := by omega
          simpa [h1] using heq
        · simpa using hlt
    · rw [if_neg hm]
      by_cases hup : bo < word_overlap pt (e.text.getD "")
      · rw [if_pos hup]
        rcases ih (i + 1) m (Int.ofNat i) (word_overlap pt (e.text.getD ""))
          with h | ⟨j, hj, hnm, heq, hlt⟩
        · right
          exact ⟨0, by simp, by simpa using hm, by simpa using h, by simpa using hup⟩
        · right
          refine ⟨j + 1, by simpa using hj, ?_, ?_, ?_⟩
          · have : i + (j + 1) = (i + 1) + j := by omega
            rw [this]; exact hnm
          · have h1 : i + (j + 1) = (i + 1) + j := by omega
            simpa [h1] using heq
          · have : bo < word_overlap pt ((es.getD j ⟨none, none⟩).text.getD "") :=
              lt_trans hup hlt
            simpa using this
      · rw [if_neg hup]
        rcases ih (i + 1) m bi bo with h | ⟨j, hj, hnm, heq, hlt⟩
        · left; exact h
        · right
          refine ⟨j + 1, by simpa using hj, ?_, ?_, ?_⟩
          · have : i + (j + 1) = (i + 1) + j := by omega
            rw [this]; exact hnm
          · have h1 : i + (j + 1) = (i + 1) + j := by omega
            simpa [h1] using heq
          · simpa using hlt

/-- The promise inner loop never decreases the running best overlap. -/
theorem bestLoop_mono (pt : String) :
    ∀ (es : List PromiseD) (i : Nat) (m : List Nat) (bi : Int) (bo : Rat),
      bo ≤ (bestLoop pt es i m bi bo).2 := by
  intro es
  induction es with
  | nil => intro i m bi bo; exact le_refl _
  | cons e es ih =>
    intro i m bi bo
    simp only [bestLoop]
    by_cases hm : i ∈ m
    · rw [if_pos hm]; exact ih (i + 1) m bi bo
    · rw [if_neg hm]
      by_cases hup : bo < word_overlap pt (e.text.getD "")
      · rw [if_pos hup]
        exact le_of_lt (lt_of_lt_of_le hup (ih (i + 1) m (Int.ofNat i) _))
      · rw [if_neg hup]; exact ih (i + 1) m bi bo

/-- The promise inner loop returns a value at least the overlap of
every unconsumed candidate it scanned. -/
theorem bestLoop_ge (pt : String) :
    ∀ (es : List PromiseD) (i : Nat) (m : List Nat) (bi : Int) (bo : Rat) (j : Nat),
      j < es.length → (i + j) ∉ m →
      word_overlap pt ((es.getD j ⟨none, none⟩).text.getD "") ≤
        (bestLoop pt es i m bi bo).2 := by
  intro es
  induction es with
  | nil => intro i m bi bo j hj; exact absurd hj (by simp)
  | cons e es ih =>
    intro i m bi bo j hj hnm
    simp only [bestLoop]
    match j with
    | 0 =>
      have hm : i ∉ m := by simpa using hnm
      rw [if_neg hm]
      by_cases hup : bo < word_overlap pt (e.text.getD "")
      · rw [if_pos hup]
        simpa using bestLoop_mono pt es (i + 1) m (Int.ofNat i) _
      · rw [if_neg hup]
        have h1 : word_overlap pt (e.text.getD "") ≤ bo := le_of_not_lt hup
        exact le_trans (by simpa using h1) (bestLoop_mono pt es (i + 1) m bi bo)
    | j + 1 =>
      have hj' : j < es.length := by simpa using hj
      have hnm' : (i + 1) + j ∉ m := by
        have : (i + 1) + j = i + (j + 1) := by omega
        rw [this]; exact hnm
      have hrec := fun bi bo => ih (i + 1) m bi bo j hj' hnm'
      by_cases hm : i ∈ m
      · rw [if_pos hm]; simpa using hrec bi bo
      · rw [if_neg hm]
        by_cases hup : bo < word_overlap pt (e.text.getD "")
        · rw [if_pos hup]; simpa using hrec (Int.ofNat i) _
        · rw [if_neg hup]; simpa using hrec bi bo

/-- If the promise inner loop, started from `(-1, 0)`, returns a
strictly positive best, it selected a valid unconsumed index whose
overlap is that best. -/
theorem bestPromise_of_pos (pt : String) (expected : List PromiseD) (m : List Nat)
    (h : 0 < (bestPromise pt expected m).2) :
    ∃ j, j < expected.length ∧ j ∉ m ∧
      bestPromise pt expected m =
        (Int.ofNat j, word_overlap pt ((expected.getD j ⟨none, none⟩).text.getD "")) := by
  rcases bestLoop_cases pt expected 0 m (-1) 0 with h0 | ⟨j, hj, hnm, heq, _⟩
  · rw [bestPromise, h0] at h
    exact absurd h (by norm_num)
  · exact ⟨j, hj, by simpa using hnm, by simpa using heq⟩

/-- Case analysis for the contradiction inner loop: it either returns
the running best unchanged, or selects an unconsumed index `i + j`
whose normalised severity equals the predicted one and whose
description overlap strictly beats the initial best. -/
theorem bestContraLoop_cases (predSev predDesc : String) :
    ∀ (es : List ContraD) (i : Nat) (m : List Nat) (bi : Int) (bs : Rat),
      bestContraLoop predSev predDesc es i m bi bs = (bi, bs) ∨
      ∃ j, j < es.length ∧ (i + j) ∉ m ∧
        predSev = sevNorm ((es.getD j ⟨none, none⟩).severity) ∧
        bestContraLoop predSev predDesc es i m bi bs =
          (Int.ofNat (i + j),
            word_overlap predDesc ((es.getD j ⟨none, none⟩).description.getD "")) ∧
        bs < word_overlap predDesc ((es.getD j ⟨none, none⟩).description.getD "") := by
  intro es
  induction es with
  | nil => intro i m bi bs; left; rfl
  | cons e es ih =>
    intro i m bi bs
    simp only [bestContraLoop]
    by_cases hm : i ∈ m
    · rw [if_pos hm]
      rcases ih (i + 1) m bi bs with h | ⟨j, hj, hnm, hsev, heq, hlt⟩
      · left; exact h
      · right
        have h1 : i + (j + 1) = (i + 1) + j := by omega
        exact ⟨j + 1, by simpa using hj, by rw [h1]; exact hnm, by simpa using hsev,
          by simpa [h1] using heq, by simpa using hlt⟩
    · rw [if_neg hm]
      by_cases hsv : predSev ≠ sevNorm e.severity
      · rw [if_pos hsv]
        rcases ih (i + 1) m bi bs with h | ⟨j, hj, hnm, hsev, heq, hlt⟩
        · left; exact h
        · right
          have h1 : i + (j + 1) = (i + 1) + j := by omega
          exact ⟨j + 1, by simpa using hj, by rw [h1]; exact hnm, by simpa using hsev,
            by simpa [h1] using heq, by simpa using hlt⟩
      · rw [if_neg hsv]
        have hsveq : predSev = sevNorm e.severity := not_not.mp (by simpa using hsv)
        by_cases hup : bs < word_overlap predDesc (e.description.getD "")
        · rw [if_pos hup]
          rcases ih (i + 1) m (Int.ofNat i) (word_overlap predDesc (e.description.getD ""))
            with h | ⟨j, hj, hnm, hsev, heq, hlt⟩
          · right
            exact ⟨0, by simp, by simpa using hm, by simpa using hsveq,
              by simpa using h, by simpa using hup⟩
          · right
            have h1 : i + (j + 1) = (i + 1) + j := by omega
            refine ⟨j + 1, by simpa using hj, by rw [h1]; exact hnm, by simpa using hsev,
              by simpa [h1] using heq, ?_⟩
            have := lt_trans hup hlt
            simpa using this
        · rw [if_neg hup]
          rcases ih (i + 1) m bi bs with h | ⟨j, hj, hnm, hsev, heq, hlt⟩
          · left; exact h
          · right
            have h1 : i + (j + 1) = (i + 1) + j := by omega
            exact ⟨j + 1, by simpa using hj, by rw [h1]; exact hnm, by simpa using hsev,
              by simpa [h1] using heq, by simpa using hlt⟩

/-- If the contradiction inner loop, started from `(-1, 0)`, returns a
strictly positive best, it selected a valid unconsumed index with equal
normalised severity whose description overlap is that best. -/
theorem bestContra_of_pos (predSev predDesc : String) (expected : List ContraD)
    (m : List Nat) (h : 0 < (bestContra predSev predDesc expected m).2) :
    ∃ j, j < expected.length ∧ j ∉ m ∧
      predSev = sevNorm ((expected.getD j ⟨none, none⟩).severity) ∧
      bestContra predSev predDesc expected m =
        (Int.ofNat j,
          word_overlap predDesc ((expected.getD j ⟨none, none⟩).description.getD "")) := by
  rcases bestContraLoop_cases predSev predDesc expected 0 m (-1) 0
    with h0 | ⟨j, hj, hnm, hsev, heq, _⟩
  · rw [bestContra, h0] at h
    exact absurd h (by norm_num)
  · exact ⟨j, hj, by simpa using hnm, hsev, by simpa using heq⟩

/-- Counter accounting for the instrumented promise loop: the final
consumed list extends the initial one by the matched expected indices;
true positives grow by the number of recorded matches, false positives
by the number of predicted entries that matched nothing; the
false-negative and all contradiction counters are untouched. -/
theorem matchPromisesAux_counts (expected : List PromiseD) :
    ∀ (ps : List PromiseD) (k : Nat) (m : List Nat) (r : EvalResult),
      (matchPromisesAux ps expected k m r).2.1
          = m ++ (matchPromisesAux ps expected k m r).1.map (fun pr => pr.2) ∧
      (matchPromisesAux ps expected k m r).1.length ≤ ps.length ∧
      (matchPromisesAux ps expected k m r).2.2.promise_tp
          = r.promise_tp + (matchPromisesAux ps expected k m r).1.length ∧
      (matchPromisesAux ps expected k m r).2.2.promise_fp
          = r.promise_fp + (ps.length - (matchPromisesAux ps expected k m r).1.length) ∧
      (matchPromisesAux ps expected k m r).2.2.promise_fn = r.promise_fn ∧
      (matchPromisesAux ps expected k m r).2.2.contradiction_tp = r.contradiction_tp ∧
      (matchPromisesAux ps expected k m r).2.2.contradiction_fp = r.contradiction_fp ∧
      (matchPromisesAux ps expected k m r).2.2.contradiction_fn = r.contradiction_fn := by
  intro ps
  induction ps with
  | nil => intro k m r; simp [matchPromisesAux]
  | cons p ps ih =>
    intro k m r
    by_cases hg : 4/5 ≤ (bestPromise (p.text.getD "") expected m).2 ∧
        0 ≤ (bestPromise (p.text.getD "") expected m).1
    · have hstep : matchPromisesAux (p :: ps) expected k m r =
          ((k, (bestPromise (p.text.getD "") expected m).1.toNat) ::
            (matchPromisesAux ps expected (k + 1)
              (m ++ [(bestPromise (p.text.getD "") expected m).1.toNat])
              { r with promise_tp := r.promise_tp + 1,
                       confidence_errors := r.confidence_errors ++
                         [|p.confidence.getD (1/2) -
                           ((expected.getD
                             (bestPromise (p.text.getD "") expected m).1.toNat
                             ⟨none, none⟩).confidence.getD (1/2))|] }).1,
           (matchPromisesAux ps expected (k + 1)
              (m ++ [(bestPromise (p.text.getD "") expected m).1.toNat])
              { r with promise_tp := r.promise_tp + 1,
                       confidence_errors := r.confidence_errors ++
                         [|p.confidence.getD (1/2) -
                           ((expected.getD
                             (bestPromise (p.text.getD "") expected m).1.toNat
                             ⟨none, none⟩).confidence.getD (1/2))|] }).2.1,
           (matchPromisesAux ps expected (k + 1)
              (m ++ [(bestPromise (p.text.getD "") expected m).1.toNat])
              { r with promise_tp := r.promise_tp + 1,
                       confidence_errors := r.confidence_errors ++
                         [|p.confidence.getD (1/2) -
                           ((expected.getD
                             (bestPromise (p.text.getD "") expected m).1.toNat
                             ⟨none, none⟩).confidence.getD (1/2))|] }).2.2) := by
        simp only [matchPromisesAux]
        rw [if_pos hg]
      obtain ⟨ih1, ih2, ih3, ih4, ih5, ih6, ih7, ih8⟩ :=
        ih (k + 1) (m ++ [(bestPromise (p.text.getD "") expected m).1.toNat])
          { r with promise_tp := r.promise_tp + 1,
                   confidence_errors := r.confidence_errors ++
                     [|p.confidence.getD (1/2) -
                       ((expected.getD
                         (bestPromise (p.text.getD "") expected m).1.toNat
                         ⟨none, none⟩).confidence.getD (1/2))|] }
      rw [hstep]
      refine ⟨?_, ?_, ?_, ?_, ?_, ?_, ?_, ?_⟩
      · simpa using ih1
      · simpa using Nat.succ_le_succ ih2
      · simp only [List.length_cons]
        simp only [ih3]
        omega
      · simp only [List.length_cons]
        simp only [ih4]
        omega
      · simpa using ih5
      · simpa using ih6
      · simpa using ih7
      · simpa using ih8
    · have hstep : matchPromisesAux (p :: ps) expected k m r =
          matchPromisesAux ps expected (k + 1) m
            { r with promise_fp := r.promise_fp + 1 } := by
        simp only [matchPromisesAux]
        rw [if_neg hg]
      obtain ⟨ih1, ih2, ih3, ih4, ih5, ih6, ih7, ih8⟩ :=
        ih (k + 1) m { r with promise_fp := r.promise_fp + 1 }
      rw [hstep]
      refine ⟨ih1, Nat.le_succ_of_le ih2, by simpa using ih3, ?_, by simpa using ih5,
        by simpa using ih6, by simpa using ih7, by simpa using ih8⟩
      simp only [ih4, List.length_cons]
      have := ih2
      omega

/-- Every match recorded by the promise loop pairs a predicted index in
the processed range with a valid expected index that was not consumed
when the loop started. -/
theorem matchPromisesAux_mem (expected : List PromiseD) :
    ∀ (ps : List PromiseD) (k : Nat) (m : List Nat) (r : EvalResult),
      ∀ pr ∈ (matchPromisesAux ps expected k m r).1,
        k ≤ pr.1 ∧ pr.1 < k + ps.length ∧ pr.2 < expected.length ∧ pr.2 ∉ m := by
  intro ps
  induction ps with
  | nil => intro k m r pr hpr; simp [matchPromisesAux] at hpr
  | cons p ps ih =>
    intro k m r pr hpr
    by_cases hg : 4/5 ≤ (bestPromise (p.text.getD "") expected m).2 ∧
        0 ≤ (bestPromise (p.text.getD "") expected m).1
    · have hpos : 0 < (bestPromise (p.text.getD "") expected m).2 :=
        lt_of_lt_of_le (by norm_num) hg.1
      obtain ⟨j, hj, hjm, heq⟩ := bestPromise_of_pos _ _ _ hpos
      have hto : (bestPromise (p.text.getD "") expected m).1.toNat = j := by
        rw [heq]; simp
      rw [show matchPromisesAux (p :: ps) expected k m r =
          ((k, (bestPromise (p.text.getD "") expected m).1.toNat) ::
            (matchPromisesAux ps expected (k + 1)
              (m ++ [(bestPromise (p.text.getD "") expected m).1.toNat])
              { r with promise_tp := r.promise_tp + 1,
                       confidence_errors := r.confidence_errors ++
                         [|p.confidence.getD (1/2) -
                           ((expected.getD
                             (bestPromise (p.text.getD "") expected m).1.toNat
                             ⟨none, none⟩).confidence.getD (1/2))|] }).1,
           (matchPromisesAux ps expected (k + 1)
              (m ++ [(bestPromise (p.text.getD "") expected m).1.toNat])
              { r with promise_tp := r.promise_tp + 1,
                       confidence_errors := r.confidence_errors ++
                         [|p.confidence.getD (1/2) -
                           ((expected.getD
                             (bestPromise (p.text.getD "") expected m).1.toNat
                             ⟨none, none⟩).confidence.getD (1/2))|] }).2.1,
           (matchPromisesAux ps expected (k + 1)
              (m ++ [(bestPromise (p.text.getD "") expected m).1.toNat])
              { r with promise_tp := r.promise_tp + 1,
                       confidence_errors := r.confidence_errors ++
                         [|p.confidence.getD (1/2) -
                           ((expected.getD
                             (bestPromise (p.text.getD "") expected m).1.toNat
                             ⟨none, none⟩).confidence.getD (1/2))|] }).2.2) from by
          simp only [matchPromisesAux]; rw [if_pos hg]] at hpr
      rcases List.mem_cons.mp hpr with hhd | htl
      · subst hhd
        refine ⟨le_refl _, by simp, ?_, ?_⟩
        · rw [hto]; exact hj
        · rw [hto]; exact hjm
      · obtain ⟨ha, hb, hc, hd⟩ := ih (k + 1) _ _ pr htl
        refine ⟨by omega, ?_, hc, ?_⟩
        · simp only [List.length_cons]
          omega
        · intro hmem
          exact hd (List.mem_append_left _ hmem)
    · rw [show matchPromisesAux (p :: ps) expected k m r =
          matchPromisesAux ps expected (k + 1) m
            { r with promise_fp := r.promise_fp + 1 } from by
          simp only [matchPromisesAux]; rw [if_neg hg]] at hpr
      obtain ⟨ha, hb, hc, hd⟩ := ih (k + 1) m _ pr hpr
      refine ⟨by omega, ?_, hc, hd⟩
      simp only [List.length_cons]
      omega

/-- The matched expected indices recorded by the promise loop are
pairwise distinct and the recorded predicted indices strictly
increase. -/
theorem matchPromisesAux_nodup (expected : List PromiseD) :
    ∀ (ps : List PromiseD) (k : Nat) (m : List Nat) (r : EvalResult),
      ((matchPromisesAux ps expected k m r).1.map (fun pr => pr.2)).Nodup ∧
      ((matchPromisesAux ps expected k m r).1.map (fun pr => pr.1)).Sorted (· < ·) := by
  intro ps
  induction ps with
  | nil => intro k m r; simp [matchPromisesAux]
  | cons p ps ih =>
    intro k m r
    by_cases hg : 4/5 ≤ (bestPromise (p.text.getD "") expected m).2 ∧
        0 ≤ (bestPromise (p.text.getD "") expected m).1
    · rw [show matchPromisesAux (p :: ps) expected k m r =
          ((k, (bestPromise (p.text.getD "") expected m).1.toNat) ::
            (matchPromisesAux ps expected (k + 1)
              (m ++ [(bestPromise (p.text.getD "") expected m).1.toNat])
              { r with promise_tp := r.promise_tp + 1,
                       confidence_errors := r.confidence_errors ++
                         [|p.confidence.getD (1/2) -
                           ((expected.getD
                             (bestPromise (p.text.getD "") expected m).1.toNat
                             ⟨none, none⟩).confidence.getD (1/2))|] }).1,
           (matchPromisesAux ps expected (k + 1)
              (m ++ [(bestPromise (p.text.getD "") expected m).1.toNat])
              { r with promise_tp := r.promise_tp + 1,
                       confidence_errors := r.confidence_errors ++
                         [|p.confidence.getD (1/2) -
                           ((expected.getD
                             (bestPromise (p.text.getD "") expected m).1.toNat
                             ⟨none, none⟩).confidence.getD (1/2))|] }).2.1,
           (matchPromisesAux ps expected (k + 1)
              (m ++ [(bestPromise (p.text.getD "") expected m).1.toNat])
              { r with promise_tp := r.promise_tp + 1,
                       confidence_errors := r.confidence_errors ++
                         [|p.confidence.getD (1/2) -
                           ((expected.getD
                             (bestPromise (p.text.getD "") expected m).1.toNat
                             ⟨none, none⟩).confidence.getD (1/2))|] }).2.2) from by
          simp only [matchPromisesAux]; rw [if_pos hg]]
      obtain ⟨ihn, ihs⟩ := ih (k + 1) (m ++ [(bestPromise (p.text.getD "") expected m).1.toNat]) _
      constructor
      · simp only [List.map_cons, List.nodup_cons]
        refine ⟨?_, ihn⟩
        intro hmem
        obtain ⟨pr, hpr, hpr2⟩ := List.mem_map.mp hmem
        have := (matchPromisesAux_mem expected ps (k + 1)
          (m ++ [(bestPromise (p.text.getD "") expected m).1.toNat]) _ pr hpr).2.2.2
        exact this (by rw [hpr2]; exact List.mem_append_right _ (by simp))
      · simp only [List.map_cons, List.sorted_cons]
        refine ⟨?_, ihs⟩
        intro b hb
        obtain ⟨pr, hpr, hpr1⟩ := List.mem_map.mp hb
        have := (matchPromisesAux_mem expected ps (k + 1)
          (m ++ [(bestPromise (p.text.getD "") expected m).1.toNat]) _ pr hpr).1
        omega
    · rw [show matchPromisesAux (p :: ps) expected k m r =
          matchPromisesAux ps expected (k + 1) m
            { r with promise_fp := r.promise_fp + 1 } from by
          simp only [matchPromisesAux]; rw [if_neg hg]]
      exact ih (k + 1) m _

/-- Counter accounting for the instrumented contradiction loop. -/
theorem matchContradictionsAux_counts (expected : List ContraD) :
    ∀ (ps : List ContraD) (k : Nat) (m : List Nat) (r : EvalResult),
      (matchContradictionsAux ps expected k m r).2.1
          = m ++ (matchContradictionsAux ps expected k m r).1.map (fun pr => pr.2) ∧
      (matchContradictionsAux ps expected k m r).1.length ≤ ps.length ∧
      (matchContradictionsAux ps expected k m r).2.2.contradiction_tp
          = r.contradiction_tp + (matchContradictionsAux ps expected k m r).1.length ∧
      (matchContradictionsAux ps expected k m r).2.2.contradiction_fp
          = r.contradiction_fp
            + (ps.length - (matchContradictionsAux ps expected k m r).1.length) ∧
      (matchContradictionsAux ps expected k m r).2.2.contradiction_fn
          = r.contradiction_fn ∧
      (matchContradictionsAux ps expected k m r).2.2.promise_tp = r.promise_tp ∧
      (matchContradictionsAux ps expected k m r).2.2.promise_fp = r.promise_fp ∧
      (matchContradictionsAux ps expected k m r).2.2.promise_fn = r.promise_fn := by
  intro ps
  induction ps with
  | nil => intro k m r; simp [matchContradictionsAux]
  | cons p ps ih =>
    intro k m r
    by_cases hg : 1/2 ≤ (bestContra (sevNorm p.severity) (p.description.getD "") expected m).2 ∧
        0 ≤ (bestContra (sevNorm p.severity) (p.description.getD "") expected m).1
    · have hstep : matchContradictionsAux (p :: ps) expected k m r =
          ((k, (bestContra (sevNorm p.severity) (p.description.getD "") expected m).1.toNat) ::
            (matchContradictionsAux ps expected (k + 1)
              (m ++ [(bestContra (sevNorm p.severity) (p.description.getD "") expected m).1.toNat])
              { r with contradiction_tp := r.contradiction_tp + 1 }).1,
           (matchContradictionsAux ps expected (k + 1)
              (m ++ [(bestContra (sevNorm p.severity) (p.description.getD "") expected m).1.toNat])
              { r with contradiction_tp := r.contradiction_tp + 1 }).2.1,
           (matchContradictionsAux ps expected (k + 1)
              (m ++ [(bestContra (sevNorm p.severity) (p.description.getD "") expected m).1.toNat])
              { r with contradiction_tp := r.contradiction_tp + 1 }).2.2) := by
        simp only [matchContradictionsAux]
        rw [if_pos hg]
      obtain ⟨ih1, ih2, ih3, ih4, ih5, ih6, ih7, ih8⟩ :=
        ih (k + 1)
          (m ++ [(bestContra (sevNorm p.severity) (p.description.getD "") expected m).1.toNat])
          { r with contradiction_tp := r.contradiction_tp + 1 }
      rw [hstep]
      refine ⟨by simpa using ih1, by simpa using Nat.succ_le_succ ih2, ?_, ?_,
        by simpa using ih5, by simpa using ih6, by simpa using ih7, by simpa using ih8⟩
      · simp only [List.length_cons, ih3]
        omega
      · simp only [List.length_cons, ih4]
        omega
    · have hstep : matchContradictionsAux (p :: ps) expected k m r =
          matchContradictionsAux ps expected (k + 1) m
            { r with contradiction_fp := r.contradiction_fp + 1 } := by
        simp only [matchContradictionsAux]
        rw [if_neg hg]
      obtain ⟨ih1, ih2, ih3, ih4, ih5, ih6, ih7, ih8⟩ :=
        ih (k + 1) m { r with contradiction_fp := r.contradiction_fp + 1 }
      rw [hstep]
      refine ⟨ih1, Nat.le_succ_of_le ih2, by simpa using ih3, ?_, by simpa using ih5,
        by simpa using ih6, by simpa using ih7, by simpa using ih8⟩
      simp only [ih4, List.length_cons]
      have := ih2
      omega

/-- Every match recorded by the contradiction loop pairs a predicted
index in the processed range with a valid, previously unconsumed
expected index whose normalised severity equals the predicted one and
whose description overlap is at least `0.5`. -/
theorem matchContradictionsAux_mem (expected : List ContraD) :
    ∀ (ps : List ContraD) (k : Nat) (m : List Nat) (r : EvalResult),
      ∀ pr ∈ (matchContradictionsAux ps expected k m r).1,
        k ≤ pr.1 ∧ pr.1 < k + ps.length ∧ pr.2 < expected.length ∧ pr.2 ∉ m ∧
        sevNorm ((ps.getD (pr.1 - k) ⟨none, none⟩).severity)
          = sevNorm ((expected.getD pr.2 ⟨none, none⟩).severity) ∧
        1/2 ≤ word_overlap ((ps.getD (pr.1 - k) ⟨none, none⟩).description.getD "")
          ((expected.getD pr.2 ⟨none, none⟩).description.getD "") := by
  intro ps
  induction ps with
  | nil => intro k m r pr hpr; simp [matchContradictionsAux] at hpr
  | cons p ps ih =>
    intro k m r pr hpr
    by_cases hg : 1/2 ≤ (bestContra (sevNorm p.severity) (p.description.getD "") expected m).2 ∧
        0 ≤ (bestContra (sevNorm p.severity) (p.description.getD "") expected m).1
    · have hpos : 0 < (bestContra (sevNorm p.severity) (p.description.getD "") expected m).2 :=
        lt_of_lt_of_le (by norm_num) hg.1
      obtain ⟨j, hj, hjm, hsev, heq⟩ := bestContra_of_pos _ _ _ _ hpos
      have hto : (bestContra (sevNorm p.severity) (p.description.getD "") expected m).1.toNat
          = j := by
        rw [heq]; simp
      have hov : (bestContra (sevNorm p.severity) (p.description.getD "") expected m).2
          = word_overlap (p.description.getD "")
              ((expected.getD j ⟨none, none⟩).description.getD "") := by
        rw [heq]
      rw [show matchContradictionsAux (p :: ps) expected k m r =
          ((k, (bestContra (sevNorm p.severity) (p.description.getD "") expected m).1.toNat) ::
            (matchContradictionsAux ps expected (k + 1)
              (m ++ [(bestContra (sevNorm p.severity) (p.description.getD "") expected m).1.toNat])
              { r with contradiction_tp := r.contradiction_tp + 1 }).1,
           (matchContradictionsAux ps expected (k + 1)
              (m ++ [(bestContra (sevNorm p.severity) (p.description.getD "") expected m).1.toNat])
              { r with contradiction_tp := r.contradiction_tp + 1 }).2.1,
           (matchContradictionsAux ps expected (k + 1)
              (m ++ [(bestContra (sevNorm p.severity) (p.description.getD "") expected m).1.toNat])
              { r with contradiction_tp := r.contradiction_tp + 1 }).2.2) from by
          simp only [matchContradictionsAux]; rw [if_pos hg]] at hpr
      rcases List.mem_cons.mp hpr with hhd | htl
      · subst hhd
        refine ⟨le_refl _, by simp, by rw [hto]; exact hj, by rw [hto]; exact hjm, ?_, ?_⟩
        · simp only [hto, Nat.sub_self, List.getD_cons_zero]
          exact hsev
        · simp only [hto, Nat.sub_self, List.getD_cons_zero]
          have := hg.1
          rw [hov] at this
          exact this
      · obtain ⟨ha, hb, hc, hd, he, hf⟩ := ih (k + 1) _ _ pr htl
        have hsub : pr.1 - k = (pr.1 - (k + 1)) + 1 := by omega
        refine ⟨by omega, ?_, hc, ?_, ?_, ?_⟩
        · simp only [List.length_cons]
          omega
        · intro hmem
          exact hd (List.mem_append_left _ hmem)
        · rw [hsub, List.getD_cons_succ]
          exact he
        · rw [hsub, List.getD_cons_succ]
          exact hf
    · rw [show matchContradictionsAux (p :: ps) expected k m r =
          matchContradictionsAux ps expected (k + 1) m
            { r with contradiction_fp := r.contradiction_fp + 1 } from by
          simp only [matchContradictionsAux]; rw [if_neg hg]] at hpr
      obtain ⟨ha, hb, hc, hd, he, hf⟩ := ih (k + 1) m _ pr hpr
      have hsub : pr.1 - k = (pr.1 - (k + 1)) + 1 := by omega
      refine ⟨by omega, ?_, hc, hd, ?_, ?_⟩
      · simp only [List.length_cons]
        omega
      · rw [hsub, List.getD_cons_succ]
        exact he
      · rw [hsub, List.getD_cons_succ]
        exact hf

/-- The matched expected indices recorded by the contradiction loop are
pairwise distinct and the recorded predicted indices strictly
increase. -/
theorem matchContradictionsAux_nodup (expected : List ContraD) :
    ∀ (ps : List ContraD) (k : Nat) (m : List Nat) (r : EvalResult),
      ((matchContradictionsAux ps expected k m r).1.map (fun pr => pr.2)).Nodup ∧
      ((matchContradictionsAux ps expected k m r).1.map (fun pr => pr.1)).Sorted (· < ·) := by
  intro ps
  induction ps with
  | nil => intro k m r; simp [matchContradictionsAux]
  | cons p ps ih =>
    intro k m r
    by_cases hg : 1/2 ≤ (bestContra (sevNorm p.severity) (p.description.getD "") expected m).2 ∧
        0 ≤ (bestContra (sevNorm p.severity) (p.description.getD "") expected m).1
    · rw [show matchContradictionsAux (p :: ps) expected k m r =
          ((k, (bestContra (sevNorm p.severity) (p.description.getD "") expected m).1.toNat) ::
            (matchContradictionsAux ps expected (k + 1)
              (m ++ [(bestContra (sevNorm p.severity) (p.description.getD "") expected m).1.toNat])
              { r with contradiction_tp := r.contradiction_tp + 1 }).1,
           (matchContradictionsAux ps expected (k + 1)
              (m ++ [(bestContra (sevNorm p.severity) (p.description.getD "") expected m).1.toNat])
              { r with contradiction_tp := r.contradiction_tp + 1 }).2.1,
           (matchContradictionsAux ps expected (k + 1)
              (m ++ [(bestContra (sevNorm p.severity) (p.description.getD "") expected m).1.toNat])
              { r with contradiction_tp := r.contradiction_tp + 1 }).2.2) from by
          simp only [matchContradictionsAux]; rw [if_pos hg]]
      obtain ⟨ihn, ihs⟩ := ih (k + 1)
        (m ++ [(bestContra (sevNorm p.severity) (p.description.getD "") expected m).1.toNat]) _
      constructor
      · simp only [List.map_cons, List.nodup_cons]
        refine ⟨?_, ihn⟩
        intro hmem
        obtain ⟨pr, hpr, hpr2⟩ := List.mem_map.mp hmem
        have := (matchContradictionsAux_mem expected ps (k + 1)
          (m ++ [(bestContra (sevNorm p.severity) (p.description.getD "") expected m).1.toNat])
          _ pr hpr).2.2.2.1
        exact this (by rw [hpr2]; exact List.mem_append_right _ (by simp))
      · simp only [List.map_cons, List.sorted_cons]
        refine ⟨?_, ihs⟩
        intro b hb
        obtain ⟨pr, hpr, hpr1⟩ := List.mem_map.mp hb
        have := (matchContradictionsAux_mem expected ps (k + 1)
          (m ++ [(bestContra (sevNorm p.severity) (p.description.getD "") expected m).1.toNat])
          _ pr hpr).1
        omega
    · rw [show matchContradictionsAux (p :: ps) expected k m r =
          matchContradictionsAux ps expected (k + 1) m
            { r with contradiction_fp := r.contradiction_fp + 1 } from by
          simp only [matchContradictionsAux]; rw [if_neg hg]]
      exact ih (k + 1) m _

/-- A duplicate-free list of naturals all below `n` has at most `n`
elements. -/
theorem length_le_of_nodup_lt (l : List Nat) (n : Nat) (hn : l.Nodup)
    (hb : ∀ x ∈ l, x < n) : l.length ≤ n := by
  have hcard : l.toFinset.card = l.length := List.toFinset_card_of_nodup hn
  have hsub : l.toFinset ⊆ Finset.range n := by
    intro x hx
    simpa using hb x (List.mem_toFinset.mp hx)
  have := Finset.card_le_card hsub
  simpa [hcard] using this

/-- The number of matches recorded on a full run from a fresh state is
bounded by both list lengths. -/
theorem matchPromisesAux_len_le (pp pe : List PromiseD) :
    (matchPromisesAux pp pe 0 [] rzero).1.length ≤ pp.length ∧
    (matchPromisesAux pp pe 0 [] rzero).1.length ≤ pe.length := by
  refine ⟨(matchPromisesAux_counts pe pp 0 [] rzero).2.1, ?_⟩
  have hlen : ((matchPromisesAux pp pe 0 [] rzero).1.map (fun pr => pr.2)).length
      = (matchPromisesAux pp pe 0 [] rzero).1.length := List.length_map _ _
  rw [← hlen]
  refine length_le_of_nodup_lt _ _ (matchPromisesAux_nodup pe pp 0 [] rzero).1 ?_
  intro x hx
  obtain ⟨pr, hpr, hpr2⟩ := List.mem_map.mp hx
  have := (matchPromisesAux_mem pe pp 0 [] rzero pr hpr).2.2.1
  omega

/-- Contradiction-side analogue of `matchPromisesAux_len_le`. -/
theorem matchContradictionsAux_len_le (cp ce : List ContraD) :
    (matchContradictionsAux cp ce 0 [] rzero).1.length ≤ cp.length ∧
    (matchContradictionsAux cp ce 0 [] rzero).1.length ≤ ce.length := by
  refine ⟨(matchContradictionsAux_counts ce cp 0 [] rzero).2.1, ?_⟩
  have hlen : ((matchContradictionsAux cp ce 0 [] rzero).1.map (fun pr => pr.2)).length
      = (matchContradictionsAux cp ce 0 [] rzero).1.length := List.length_map _ _
  rw [← hlen]
  refine length_le_of_nodup_lt _ _ (matchContradictionsAux_nodup ce cp 0 [] rzero).1 ?_
  intro x hx
  obtain ⟨pr, hpr, hpr2⟩ := List.mem_map.mp hx
  have := (matchContradictionsAux_mem ce cp 0 [] rzero pr hpr).2.2.1
  omega

/-- C6: both matchers implement greedy one-to-one matching.  On a fresh
result record, the recorded expected indices are pairwise distinct
(each expected entry is consumed at most once) and valid; the recorded
predicted indices strictly increase (predicted entries are processed in
list order); the false-positive counter is exactly the number of
predicted entries that matched nothing and the false-negative counter
exactly the number of expected entries never consumed. -/
theorem greedy_matching_one_to_one (pp pe : List PromiseD) (cp ce : List ContraD) :
    (((matchPromisesAux pp pe 0 [] rzero).1.map (fun pr => pr.2)).Nodup ∧
     (∀ pr ∈ (matchPromisesAux pp pe 0 [] rzero).1,
        pr.1 < pp.length ∧ pr.2 < pe.length) ∧
     ((matchPromisesAux pp pe 0 [] rzero).1.map (fun pr => pr.1)).Sorted (· < ·) ∧
     (match_promises pp pe rzero).promise_fp
        = pp.length - (matchPromisesAux pp pe 0 [] rzero).1.length ∧
     (match_promises pp pe rzero).promise_fn
        = pe.length - (matchPromisesAux pp pe 0 [] rzero).1.length) ∧
    (((matchContradictionsAux cp ce 0 [] rzero).1.map (fun pr => pr.2)).Nodup ∧
     (∀ pr ∈ (matchContradictionsAux cp ce 0 [] rzero).1,
        pr.1 < cp.length ∧ pr.2 < ce.length) ∧
     ((matchContradictionsAux cp ce 0 [] rzero).1.map (fun pr => pr.1)).Sorted (· < ·) ∧
     (match_contradictions cp ce rzero).contradiction_fp
        = cp.length - (matchContradictionsAux cp ce 0 [] rzero).1.length ∧
     (match_contradictions cp ce rzero).contradiction_fn
        = ce.length - (matchContradictionsAux cp ce 0 [] rzero).1.length) := by
  obtain ⟨pc1, pc2, pc3, pc4, pc5, _, _, _⟩ := matchPromisesAux_counts pe pp 0 [] rzero
  obtain ⟨cc1, cc2, cc3, cc4, cc5, _, _, _⟩ := matchContradictionsAux_counts ce cp 0 [] rzero
  constructor
  · refine ⟨(matchPromisesAux_nodup pe pp 0 [] rzero).1, ?_,
      (matchPromisesAux_nodup pe pp 0 [] rzero).2, ?_, ?_⟩
    · intro pr hpr
      have h := matchPromisesAux_mem pe pp 0 [] rzero pr hpr
      exact ⟨by omega, h.2.2.1⟩
    · show (matchPromisesAux pp pe 0 [] rzero).2.2.promise_fp = _
      rw [pc4]
      simp [rzero]
    · show (matchPromisesAux pp pe 0 [] rzero).2.2.promise_fn
        + (pe.length - (matchPromisesAux pp pe 0 [] rzero).2.1.length) = _
      rw [pc5, pc1]
      simp [rzero]
  · refine ⟨(matchContradictionsAux_nodup ce cp 0 [] rzero).1, ?_,
      (matchContradictionsAux_nodup ce cp 0 [] rzero).2, ?_, ?_⟩
    · intro pr hpr
      have h := matchContradictionsAux_mem ce cp 0 [] rzero pr hpr
      exact ⟨by omega, h.2.2.1⟩
    · show (matchContradictionsAux cp ce 0 [] rzero).2.2.contradiction_fp = _
      rw [cc4]
      simp [rzero]
    · show (matchContradictionsAux cp ce 0 [] rzero).2.2.contradiction_fn
        + (ce.length - (matchContradictionsAux cp ce 0 [] rzero).2.1.length) = _
      rw [cc5, cc1]
      simp [rzero]

/-- C10: starting from the all-zero result record, true positives plus
false positives equal the predicted-list length and true positives plus
false negatives equal the expected-list length, for the promise matcher
and the contradiction matcher alike. -/
theorem matcher_accounting (pp pe : List PromiseD) (cp ce : List ContraD) :
    (match_promises pp pe rzero).promise_tp + (match_promises pp pe rzero).promise_fp
        = pp.length ∧
    (match_promises pp pe rzero).promise_tp + (match_promises pp pe rzero).promise_fn
        = pe.length ∧
    (match_contradictions cp ce rzero).contradiction_tp
        + (match_contradictions cp ce rzero).contradiction_fp = cp.length ∧
    (match_contradictions cp ce rzero).contradiction_tp
        + (match_contradictions cp ce rzero).contradiction_fn = ce.length := by
  obtain ⟨pc1, pc2, pc3, pc4, pc5, _, _, _⟩ := matchPromisesAux_counts pe pp 0 [] rzero
  obtain ⟨cc1, cc2, cc3, cc4, cc5, _, _, _⟩ := matchContradictionsAux_counts ce cp 0 [] rzero
  obtain ⟨hp1, hp2⟩ := matchPromisesAux_len_le pp pe
  obtain ⟨hc1, hc2⟩ := matchContradictionsAux_len_le cp ce
  have e1 : (match_promises pp pe rzero).promise_tp
      = (matchPromisesAux pp pe 0 [] rzero).1.length := by
    show (matchPromisesAux pp pe 0 [] rzero).2.2.promise_tp = _
    rw [pc3]; simp [rzero]
  have e2 : (match_promises pp pe rzero).promise_fp
      = pp.length - (matchPromisesAux pp pe 0 [] rzero).1.length := by
    show (matchPromisesAux pp pe 0 [] rzero).2.2.promise_fp = _
    rw [pc4]; simp [rzero]
  have e3 : (match_promises pp pe rzero).promise_fn
      = pe.length - (matchPromisesAux pp pe 0 [] rzero).1.length := by
    show (matchPromisesAux pp pe 0 [] rzero).2.2.promise_fn
      + (pe.length - (matchPromisesAux pp pe 0 [] rzero).2.1.length) = _
    rw [pc5, pc1]; simp [rzero]
  have f1 : (match_contradictions cp ce rzero).contradiction_tp
      = (matchContradictionsAux cp ce 0 [] rzero).1.length := by
    show (matchContradictionsAux cp ce 0 [] rzero).2.2.contradiction_tp = _
    rw [cc3]; simp [rzero]
  have f2 : (match_contradictions cp ce rzero).contradiction_fp
      = cp.length - (matchContradictionsAux cp ce 0 [] rzero).1.length := by
    show (matchContradictionsAux cp ce 0 [] rzero).2.2.contradiction_fp = _
    rw [cc4]; simp [rzero]
  have f3 : (match_contradictions cp ce rzero).contradiction_fn
      = ce.length - (matchContradictionsAux cp ce 0 [] rzero).1.length := by
    show (matchContradictionsAux cp ce 0 [] rzero).2.2.contradiction_fn
      + (ce.length - (matchContradictionsAux cp ce 0 [] rzero).2.1.length) = _
    rw [cc5, cc1]; simp [rzero]
  rw [e1, e2, e3, f1, f2, f3]
  omega

/-- C4: a predicted contradiction is matched to an expected entry only
if their normalised severities are equal (the hard gate checked before
any overlap is scored) and the description overlap of the selected best
remaining candidate is at least `0.5`; concretely, a predicted
`severity="high"` entry never matches an expected `severity="medium"`
entry even with identical descriptions (overlap `1`): it is counted as
a false positive and the expected entry as a false negative. -/
theorem contradiction_severity_gate :
    (∀ (predicted expected : List ContraD),
      ∀ pr ∈ (matchContradictionsAux predicted expected 0 [] rzero).1,
        pr.1 < predicted.length ∧ pr.2 < expected.length ∧
        sevNorm ((predicted.getD pr.1 ⟨none, none⟩).severity)
          = sevNorm ((expected.getD pr.2 ⟨none, none⟩).severity) ∧
        1/2 ≤ word_overlap ((predicted.getD pr.1 ⟨none, none⟩).description.getD "")
          ((expected.getD pr.2 ⟨none, none⟩).description.getD "")) ∧
    (word_overlap "same words here" "same words here" = 1 ∧
     match_contradictions [⟨some "high", some "same words here"⟩]
       [⟨some "medium", some "same words here"⟩] rzero = ⟨0, 0, 0, 0, 1, 1, []⟩) := by
  constructor
  · intro predicted expected pr hpr
    obtain ⟨h1, h2, h3, _, h5, h6⟩ :=
      matchContradictionsAux_mem expected predicted 0 [] rzero pr hpr
    refine ⟨by omega, h3, ?_, ?_⟩
    · simpa using h5
    · simpa using h6
  · constructor
    · norm_num +decide [word_overlap, wordSet, pySplitWs, pyStrip, pyLowerStr, pyLowerChar,
        splitWsAux, pyIsSpace, List.dedup]
    · norm_num +decide [match_contradictions, matchContradictionsAux, bestContra,
        bestContraLoop, sevNorm, word_overlap, wordSet, pySplitWs, pyStrip, pyLowerStr,
        pyLowerChar, splitWsAux, pyIsSpace, List.dedup, rzero]

/-- C4 witness: the gate theorem applied to a concrete recorded match —
equal severities and identical descriptions do match, and the theorem's
conclusions hold at that pair. -/
theorem contradiction_severity_gate_witness :
    (0, 0).1 < ([⟨some "high", some "cut all trees"⟩] : List ContraD).length ∧
    (0, 0).2 < ([⟨some "high", some "cut all trees"⟩] : List ContraD).length ∧
    sevNorm ((([⟨some "high", some "cut all trees"⟩] : List ContraD).getD (0, 0).1
        ⟨none, none⟩).severity)
      = sevNorm ((([⟨some "high", some "cut all trees"⟩] : List ContraD).getD (0, 0).2
        ⟨none, none⟩).severity) ∧
    1/2 ≤ word_overlap
      ((([⟨some "high", some "cut all trees"⟩] : List ContraD).getD (0, 0).1
        ⟨none, none⟩).description.getD "")
      ((([⟨some "high", some "cut all trees"⟩] : List ContraD).getD (0, 0).2
        ⟨none, none⟩).description.getD "") :=
  contradiction_severity_gate.1 [⟨some "high", some "cut all trees"⟩]
    [⟨some "high", some "cut all trees"⟩] (0, 0)
    (by norm_num +decide [matchContradictionsAux, bestContra, bestContraLoop, sevNorm,
      word_overlap, wordSet, pySplitWs, pyStrip, pyLowerStr, pyLowerChar, splitWsAux,
      pyIsSpace, List.dedup, rzero])

/-- Running the promise loop on a concatenation equals running it on
the first part and continuing on the second from the resulting state. -/
theorem matchPromisesAux_append (expected : List PromiseD) :
    ∀ (xs ys : List PromiseD) (k : Nat) (m : List Nat) (r : EvalResult),
      matchPromisesAux (xs ++ ys) expected k m r =
        ((matchPromisesAux xs expected k m r).1
            ++ (matchPromisesAux ys expected (k + xs.length)
                 (matchPromisesAux xs expected k m r).2.1
                 (matchPromisesAux xs expected k m r).2.2).1,
         (matchPromisesAux ys expected (k + xs.length)
           (matchPromisesAux xs expected k m r).2.1
           (matchPromisesAux xs expected k m r).2.2).2.1,
         (matchPromisesAux ys expected (k + xs.length)
           (matchPromisesAux xs expected k m r).2.1
           (matchPromisesAux xs expected k m r).2.2).2.2) := by
  intro xs
  induction xs with
  | nil => intro ys k m r; simp [matchPromisesAux]
  | cons x xs ih =>
    intro ys k m r
    by_cases hg : 4/5 ≤ (bestPromise (x.text.getD "") expected m).2 ∧
        0 ≤ (bestPromise (x.text.getD "") expected m).1
    · have hcons : (x :: xs) ++ ys = x :: (xs ++ ys) := rfl
      rw [hcons]
      simp only [matchPromisesAux]
      rw [if_pos hg, if_pos hg]
      simp only [ih]
      simp [List.length_cons, Nat.add_comm, Nat.add_assoc, Nat.add_left_comm]
    · have hcons : (x :: xs) ++ ys = x :: (xs ++ ys) := rfl
      rw [hcons]
      simp only [matchPromisesAux]
      rw [if_neg hg, if_neg hg]
      simp only [ih]
      simp [List.length_cons, Nat.add_comm, Nat.add_assoc, Nat.add_left_comm]

/-- C5: at each step the promise matcher scores the current predicted
entry against every not-yet-matched expected entry, `bestPromise`
returning at least every such candidate's overlap; the step records a
true positive exactly when the best overlap is at least `0.8` and a
false positive otherwise.  Concretely, `"build solar panels"` against
`"build solar farms"` has overlap `2/3 < 0.8`, so the pair yields one
false positive and one false negative while the lengths (the
count-match criterion) agree. -/
theorem promise_threshold_match :
    (∀ (predicted expected : List PromiseD) (k : Nat), k < predicted.length →
      (∀ j, j < expected.length →
        j ∉ (matchPromisesAux (predicted.take k) expected 0 [] rzero).2.1 →
        word_overlap ((predicted.getD k ⟨none, none⟩).text.getD "")
            ((expected.getD j ⟨none, none⟩).text.getD "")
          ≤ (bestPromise ((predicted.getD k ⟨none, none⟩).text.getD "") expected
              (matchPromisesAux (predicted.take k) expected 0 [] rzero).2.1).2) ∧
      (4/5 ≤ (bestPromise ((predicted.getD k ⟨none, none⟩).text.getD "") expected
              (matchPromisesAux (predicted.take k) expected 0 [] rzero).2.1).2 →
        (matchPromisesAux (predicted.take (k + 1)) expected 0 [] rzero).2.2.promise_tp
            = (matchPromisesAux (predicted.take k) expected 0 [] rzero).2.2.promise_tp + 1 ∧
        (matchPromisesAux (predicted.take (k + 1)) expected 0 [] rzero).2.2.promise_fp
            = (matchPromisesAux (predicted.take k) expected 0 [] rzero).2.2.promise_fp) ∧
      ((bestPromise ((predicted.getD k ⟨none, none⟩).text.getD "") expected
              (matchPromisesAux (predicted.take k) expected 0 [] rzero).2.1).2 < 4/5 →
        (matchPromisesAux (predicted.take (k + 1)) expected 0 [] rzero).2.2.promise_fp
            = (matchPromisesAux (predicted.take k) expected 0 [] rzero).2.2.promise_fp + 1 ∧
        (matchPromisesAux (predicted.take (k + 1)) expected 0 [] rzero).2.2.promise_tp
            = (matchPromisesAux (predicted.take k) expected 0 [] rzero).2.2.promise_tp)) ∧
    (word_overlap "build solar panels" "build solar farms" = 2/3 ∧
     (2/3 : Rat) < 4/5 ∧
     match_promises [⟨some "build solar panels", none⟩]
       [⟨some "build solar farms", none⟩] rzero = ⟨0, 1, 1, 0, 0, 0, []⟩ ∧
     ([⟨some "build solar panels", none⟩] : List PromiseD).length
       = ([⟨some "build solar farms", none⟩] : List PromiseD).length) := by
  constructor
  · intro predicted expected k hk
    have htake : predicted.take (k + 1)
        = predicted.take k ++ [predicted.getD k ⟨none, none⟩] := by
      rw [List.take_succ]
      congr 1
      rw [List.getElem?_eq_getElem hk]
      simp [List.getD_eq_getElem?_getD, List.getElem?_eq_getElem hk]
    refine ⟨?_, ?_, ?_⟩
    · intro j hj hjm
      exact bestLoop_ge _ expected 0 _ (-1) 0 j hj (by simpa using hjm)
    · intro hge
      have hpos : 0 < (bestPromise ((predicted.getD k ⟨none, none⟩).text.getD "") expected
          (matchPromisesAux (predicted.take k) expected 0 [] rzero).2.1).2 :=
        lt_of_lt_of_le (by norm_num) hge
      obtain ⟨j, hj, hjm, heq⟩ := bestPromise_of_pos _ _ _ hpos
      have hg : 4/5 ≤ (bestPromise ((predicted.getD k ⟨none, none⟩).text.getD "") expected
            (matchPromisesAux (predicted.take k) expected 0 [] rzero).2.1).2 ∧
          0 ≤ (bestPromise ((predicted.getD k ⟨none, none⟩).text.getD "") expected
            (matchPromisesAux (predicted.take k) expected 0 [] rzero).2.1).1 := by
        refine ⟨hge, ?_⟩
        rw [heq]
        exact Int.ofNat_nonneg j
      rw [htake, matchPromisesAux_append expected (predicted.take k)
        [predicted.getD k ⟨none, none⟩] 0 [] rzero]
      simp only [matchPromisesAux]
      rw [if_pos hg]
      exact ⟨rfl, rfl⟩
    · intro hlt
      have hg : ¬ (4/5 ≤ (bestPromise ((predicted.getD k ⟨none, none⟩).text.getD "") expected
            (matchPromisesAux (predicted.take k) expected 0 [] rzero).2.1).2 ∧
          0 ≤ (bestPromise ((predicted.getD k ⟨none, none⟩).text.getD "") expected
            (matchPromisesAux (predicted.take k) expected 0 [] rzero).2.1).1) := by
        intro hcon
        exact absurd hcon.1 (not_le_of_lt hlt)
      rw [htake, matchPromisesAux_append expected (predicted.take k)
        [predicted.getD k ⟨none, none⟩] 0 [] rzero]
      simp only [matchPromisesAux]
      rw [if_neg hg]
      exact ⟨rfl, rfl⟩
  · refine ⟨?_, by norm_num, ?_, rfl⟩
    · norm_num +decide [word_overlap, wordSet, pySplitWs, pyStrip, pyLowerStr, pyLowerChar,
        splitWsAux, pyIsSpace, List.dedup]
    · norm_num +decide [match_promises, matchPromisesAux, bestPromise, bestLoop,
        word_overlap, wordSet, pySplitWs, pyStrip, pyLowerStr, pyLowerChar, splitWsAux,
        pyIsSpace, List.dedup, rzero]

/-- C5 witness: the step characterisation applied at a concrete input
whose best overlap (identical one-promise lists) is `1 ≥ 0.8`,
recording a true positive. -/
theorem promise_threshold_match_witness :
    (matchPromisesAux (([⟨some "plant trees", none⟩] : List PromiseD).take (0 + 1))
        [⟨some "plant trees", none⟩] 0 [] rzero).2.2.promise_tp
      = (matchPromisesAux (([⟨some "plant trees", none⟩] : List PromiseD).take 0)
          [⟨some "plant trees", none⟩] 0 [] rzero).2.2.promise_tp + 1 ∧
    (matchPromisesAux (([⟨some "plant trees", none⟩] : List PromiseD).take (0 + 1))
        [⟨some "plant trees", none⟩] 0 [] rzero).2.2.promise_fp
      = (matchPromisesAux (([⟨some "plant trees", none⟩] : List PromiseD).take 0)
          [⟨some "plant trees", none⟩] 0 [] rzero).2.2.promise_fp :=
  (promise_threshold_match.1 [⟨some "plant trees", none⟩] [⟨some "plant trees", none⟩] 0
      (by norm_num)).2.1
    (by norm_num +decide [matchPromisesAux, bestPromise, bestLoop, word_overlap, wordSet,
      pySplitWs, pyStrip, pyLowerStr, pyLowerChar, splitWsAux, pyIsSpace, List.dedup, rzero])

/-- Python `==` is true on two equal strings. -/
theorem pyEq_str_self (s : String) : pyEq (.str s) (.str s) = true := by
  simp [pyEq, pyEqF, jsonSize]

/-- On a list of promise dicts that all carry a string `type` field,
the strict item access `p["type"]` and the lenient
`p.get("type", "")` both succeed and agree. -/
theorem mapExc_types (ps : List JsonValue)
    (h : ∀ p ∈ ps, ∃ kvs s, p = .obj kvs ∧ lookupKV kvs "type" = some (.str s)) :
    ∃ ss : List String, ss.length = ps.length ∧
      mapExc (fun p => pyGetItem p "type") ps = .ok (ss.map JsonValue.str) ∧
      mapExc (fun p => pyGet p "type" (.str "")) ps = .ok (ss.map JsonValue.str) := by
  induction ps with
  | nil => exact ⟨[], rfl, rfl, rfl⟩
  | cons p ps ih =>
    obtain ⟨kvs, s, hp, hl⟩ := h p (List.mem_cons_self p ps)
    obtain ⟨ss, hlen, h1, h2⟩ := ih (fun q hq => h q (List.mem_cons_of_mem _ hq))
    subst hp
    have hhead1 : pyGetItem (.obj kvs) "type" = .ok (.str s) := by
      simp [pyGetItem, hl]
    have hhead2 : pyGet (.obj kvs) "type" (.str "") = .ok (.str s) := by
      simp [pyGet, hl]
    refine ⟨s :: ss, by simp [hlen], ?_, ?_⟩
    · simp only [mapExc, hhead1, h1, List.map_cons]
    · simp only [mapExc, hhead2, h2, List.map_cons]

/-- Zipping a string list with itself and counting Python-equal pairs
gives its length. -/
theorem countP_zip_self (ss : List String) :
    ((ss.map JsonValue.str).zip (ss.map JsonValue.str)).countP
      (fun q => pyEq q.1 q.2) = ss.length := by
  induction ss with
  | nil => rfl
  | cons s ss ih =>
    simp [List.countP_cons, ih, pyEq_str_self]

/-- C8: scoring a promise list against an identical copy of itself —
any response text that parses to the very JSON value used as the
expected output, whose promises all carry a string `type` — yields
`promise_count_match = 1` and `type_precision = 1.0`. -/
theorem score_self_identity (text : String) (expected : JsonValue)
    (ps cs : List JsonValue)
    (h1 : json_loads text = .ok expected)
    (h2 : pyGet expected "promises" (.arr []) = .ok (.arr ps))
    (h3 : ∀ p ∈ ps, ∃ kvs s, p = .obj kvs ∧ lookupKV kvs "type" = some (.str s))
    (h4 : pyGet expected "contradictions" (.arr []) = .ok (.arr cs)) :
    ∃ m : MetricsE, evaluate_response text expected = .ok m ∧
      m.promise_count_match = 1 ∧ m.type_precision = 1 := by
  have htb : typeBlockResp (.arr ps) (.arr ps) = .ok 1 := by
    rcases eq_or_ne ps [] with hps | hps
    · subst hps
      simp [typeBlockResp, pyTruthy]
    · obtain ⟨ss, hlen, hm1, hm2⟩ := mapExc_types ps h3
      have hss : ss ≠ [] := by
        intro hcon
        exact hps (by simpa [hcon] using hlen.symm)
      have htr : pyTruthy (.arr ps) = true := by
        simp [pyTruthy, List.isEmpty_iff, hps]
      have hdiv : pyDiv ((ss.length : Nat) : Rat) ((ss.map JsonValue.str).length : Rat)
          = .ok 1 := by
        have hne : ((ss.length : Nat) : Rat) ≠ 0 := by
          simpa [Nat.cast_eq_zero, List.length_eq_zero] using hss
        unfold pyDiv
        rw [List.length_map, if_neg hne, div_self hne]
      have hslice : pySliceIter (.arr ps) (ss.map JsonValue.str).length = .ok ps := by
        simp only [pySliceIter, List.length_map, hlen, List.take_length]
      unfold typeBlockResp
      rw [htr, if_pos rfl]
      simp only [asIterList, hm1, hm2, hslice, countP_zip_self, hdiv]
  have hl : pyLen (.arr ps) = .ok ps.length := rfl
  have hlc : pyLen (.arr cs) = .ok cs.length := rfl
  unfold evaluate_response
  simp only [h1, h2, hl, htb, h4, hlc]
  exact ⟨_, rfl, by simp, rfl⟩

/-- C8 witness: the identity-scoring theorem applied to a concrete
response equal to its expected output, with one typed promise. -/
theorem score_self_identity_witness :
    ∃ m : MetricsE,
      evaluate_response
        "\x7b\"promises\": [\x7b\"type\": \"ecology\", \"text\": \"plant trees\"\x7d], \"contradictions\": []\x7d"
        (.obj [("promises", .arr [.obj [("type", .str "ecology"), ("text", .str "plant trees")]]),
               ("contradictions", .arr [])]) = .ok m ∧
      m.promise_count_match = 1 ∧ m.type_precision = 1 :=
  score_self_identity
    "\x7b\"promises\": [\x7b\"type\": \"ecology\", \"text\": \"plant trees\"\x7d], \"contradictions\": []\x7d"
    (.obj [("promises", .arr [.obj [("type", .str "ecology"), ("text", .str "plant trees")]]),
           ("contradictions", .arr [])])
    [.obj [("type", .str "ecology"), ("text", .str "plant trees")]] [] rfl rfl
    (by
      intro p hp
      simp only [List.mem_singleton] at hp
      subst hp
      exact ⟨_, "ecology", rfl, rfl⟩)
    rfl
